import Mathlib

/-!
# Service-broker access reconciliation (`resources/service_broker.go`)

A shallow embedding of the access-declaration engine of the Cloud Foundry
Terraform provider: expansion of declarations (`getFullServiceAccessDef`),
normalisation of the observed state (`retrieveServicesAccessFromBroker`) and
the tuple diff (`diffServicesAccess`).

Conventions of the embedding.

* A Go function returning `(value, error)` is a Lean function returning a pair
  `value × Option Error`; `none` is the Go `nil` error.  The value component is
  kept because callers in the source do read it next to a non-nil error.
* Go strings are `String`, the absent plan or organization is `""`, as in the
  source.
* The platform client is a record of its read operations.  Errors coming back
  from the client are carried unchanged in `Error.platform`; the two errors the
  engine builds itself with `fmt.Errorf` are separate constructors.
* The mutating calls of the client are the fields of `Platform`, over a type of
  platform states; the apply engine and the access part of `Update` pass the
  state along.  `specPlatform` is the platform of the specification, with a
  Visibility Store keyed by (plan, organization).
-/

set_option autoImplicit false

namespace CfServiceBroker

/-! ## Data model -/

/-- The struct `ServiceAccess` of the source: a declaration or a tuple. -/
structure ServiceAccess where
  Service : String
  Plan : String
  OrgId : String
  deriving DecidableEq, Inhabited

/-- The fields of `models.ServicePlanFields` the engine reads. -/
structure ServicePlanFields where
  GUID : String
  Name : String
  Public : Bool
  ServiceOfferingGUID : String
  deriving DecidableEq

/-- The zero value `models.ServicePlanFields{}`. -/
instance : Inhabited ServicePlanFields := ⟨⟨"", "", false, ""⟩⟩

/-- The fields of `models.ServiceOffering` the engine reads. -/
structure ServiceOffering where
  GUID : String
  Label : String
  Plans : List ServicePlanFields
  deriving DecidableEq

/-- The zero value `models.ServiceOffering{}`. -/
instance : Inhabited ServiceOffering := ⟨⟨"", "", []⟩⟩

/-- The fields of `models.ServiceBroker` the engine reads. -/
structure ServiceBroker where
  GUID : String
  Name : String
  Services : List ServiceOffering
  deriving DecidableEq

/-- The fields of `models.ServicePlanVisibilityFields` the engine reads. -/
structure ServicePlanVisibilityFields where
  GUID : String
  ServicePlanGUID : String
  OrganizationGUID : String
  deriving DecidableEq

/-- The zero value `models.ServicePlanVisibilityFields{}`. -/
instance : Inhabited ServicePlanVisibilityFields := ⟨⟨"", "", ""⟩⟩

/-- The field of `models.Organization` the engine reads. -/
structure Organization where
  GUID : String
  deriving DecidableEq

/-- Errors of the engine.  `serviceNotFound` and `planNotFound` are the two
`fmt.Errorf` values of the source, with their two format arguments in the order
the source passes them; `platform` is an error returned by the client. -/
inductive Error where
  | serviceNotFound (service broker : String)
  | planNotFound (first second : String)
  | platform (msg : String)
  deriving DecidableEq

/-- The filter map handed to `ServicePlanVisibilities().Search`: the keys
`service_plan_guid` and `organization_guid`, each present or not. -/
structure SearchFilter where
  service_plan_guid : Option String
  organization_guid : Option String
  deriving DecidableEq

/-- The read side of `cf_client.Client` used by expansion and normalisation:
`Organizations().ListOrgs(0)` and `ServicePlanVisibilities().Search(filter)`.
Each returns its value or the message of a platform error. -/
structure Client where
  ListOrgs : Except String (List Organization)
  Search : SearchFilter → Except String (List ServicePlanVisibilityFields)

/-! ## Catalog lookups -/

/-- The loop of `getService`: first service whose label or id is the name. -/
def getService (serviceBroker : ServiceBroker) (serviceName : String) : ServiceOffering :=
  match serviceBroker.Services.find?
      (fun service => service.Label == serviceName || service.GUID == serviceName) with
  | some service => service
  | none => default

/-- The loop of `getServicePlan`: first plan of the service whose name or id is
the given name and whose back-reference is the service. -/
def getServicePlan (service : ServiceOffering) (planName : String) : ServicePlanFields :=
  match service.Plans.find?
      (fun plan => (plan.Name == planName || plan.GUID == planName)
        && plan.ServiceOfferingGUID == service.GUID) with
  | some plan => plan
  | none => default

/-! ## Expansion -/

/-- One tuple per plan of the service, each with the declared organization. -/
def getServicesAccessDefWithOnlyOrg (service : ServiceOffering) (serviceAccess : ServiceAccess) :
    List ServiceAccess :=
  service.Plans.foldl
    (fun servicesAccess plan =>
      servicesAccess ++ [{ Service := serviceAccess.Service
                           OrgId := serviceAccess.OrgId
                           Plan := plan.Name }])
    []

/-- One tuple per organization of the directory, each with the declared plan.
The `service` argument is not read, as in the source. -/
def getServicesAccessDefWithOnlyPlan (client : Client) (_service : ServiceOffering)
    (serviceAccess : ServiceAccess) : List ServiceAccess × Option Error :=
  match client.ListOrgs with
  | .error msg => ([], some (.platform msg))
  | .ok orgs =>
    (orgs.foldl
      (fun servicesAccess org =>
        servicesAccess ++ [{ Service := serviceAccess.Service
                             OrgId := org.GUID
                             Plan := serviceAccess.Plan }])
      [], none)

/-- The function `getFullServiceAccessDef`: the successive `if` statements of
the source, each rebinding `servicesAccess` (and `err`). -/
def getFullServiceAccessDef (client : Client) (serviceBroker : ServiceBroker)
    (serviceAccess : ServiceAccess) : List ServiceAccess × Option Error :=
  let servicesAccess : List ServiceAccess := []
  let service := getService serviceBroker serviceAccess.Service
  if service.GUID = "" then
    (servicesAccess, some (.serviceNotFound serviceAccess.Service serviceBroker.Name))
  else
    let servicesAccess :=
      if serviceAccess.OrgId ≠ "" ∧ serviceAccess.Plan ≠ "" then
        servicesAccess ++ [serviceAccess]
      else servicesAccess
    let servicesAccess :=
      if serviceAccess.OrgId ≠ "" then
        getServicesAccessDefWithOnlyOrg service serviceAccess
      else servicesAccess
    let r : List ServiceAccess × Option Error :=
      if serviceAccess.Plan ≠ "" then
        getServicesAccessDefWithOnlyPlan client service serviceAccess
      else (servicesAccess, none)
    if serviceAccess.OrgId = "" ∧ serviceAccess.Plan = "" then
      (r.1, none)
    else if r.2.isSome then
      ([], r.2)
    else
      (r.1, r.2)

/-- The loop of `getFullServicesAccessDef` from the accumulator
`fullServicesAccess`. -/
def getFullServicesAccessDefLoop (client : Client) (serviceBroker : ServiceBroker) :
    List ServiceAccess → List ServiceAccess → List ServiceAccess × Option Error
  | [], fullServicesAccess => (fullServicesAccess, none)
  | serviceAccess :: rest, fullServicesAccess =>
    match getFullServiceAccessDef client serviceBroker serviceAccess with
    | (_, some err) => ([], some err)
    | (servicesAccessTemp, none) =>
      getFullServicesAccessDefLoop client serviceBroker rest
        (fullServicesAccess ++ servicesAccessTemp)

/-- The function `getFullServicesAccessDef`. -/
def getFullServicesAccessDef (client : Client) (serviceBroker : ServiceBroker)
    (servicesAccess : List ServiceAccess) : List ServiceAccess × Option Error :=
  getFullServicesAccessDefLoop client serviceBroker servicesAccess []

/-! ## Diff -/

/-- The function `containsServiceAccess`: some element agrees on all three
fields. -/
def containsServiceAccess : List ServiceAccess → ServiceAccess → Bool
  | [], _ => false
  | serviceAccess :: rest, serviceAccessToFind =>
    if serviceAccess.OrgId = serviceAccessToFind.OrgId ∧
        serviceAccess.Plan = serviceAccessToFind.Plan ∧
        serviceAccess.Service = serviceAccessToFind.Service then
      true
    else containsServiceAccess rest serviceAccessToFind

/-- The function `diffServicesAccess`: the pair `(toDelete, toCreate)`, each
built by its own appending loop. -/
def diffServicesAccess (servicesAccessSrc servicesAccessDest : List ServiceAccess) :
    List ServiceAccess × List ServiceAccess :=
  let toDelete := servicesAccessSrc.foldl
    (fun toDelete serviceAccessSrc =>
      if !containsServiceAccess servicesAccessDest serviceAccessSrc then
        toDelete ++ [serviceAccessSrc]
      else toDelete)
    []
  let toCreate := servicesAccessDest.foldl
    (fun toCreate serviceAccessDest =>
      if !containsServiceAccess servicesAccessSrc serviceAccessDest then
        toCreate ++ [serviceAccessDest]
      else toCreate)
    []
  (toDelete, toCreate)

/-! ## Visibility lookups -/

/-- The function `getPlanVisibilitiesForPlan`: search on the plan alone. -/
def getPlanVisibilitiesForPlan (client : Client) (planId : String) :
    List ServicePlanVisibilityFields × Option Error :=
  match client.Search { service_plan_guid := some planId, organization_guid := none } with
  | .error msg => ([], some (.platform msg))
  | .ok visibilities => (visibilities, none)

/-- The function `getPlanVisibilityForPlanAndOrg`: first result of the search
on plan and organization, the zero value when there is none. -/
def getPlanVisibilityForPlanAndOrg (client : Client) (planId orgId : String) :
    ServicePlanVisibilityFields × Option Error :=
  match client.Search { service_plan_guid := some planId, organization_guid := some orgId } with
  | .error msg => (default, some (.platform msg))
  | .ok [] => (default, none)
  | .ok (visibility :: _) => (visibility, none)

/-- The function `isPlanInOrg`. -/
def isPlanInOrg (client : Client) (planGuid orgGuid : String) : Bool × Option Error :=
  match getPlanVisibilityForPlanAndOrg client planGuid orgGuid with
  | (_, some err) => (false, some err)
  | (visibility, none) => if visibility.GUID = "" then (false, none) else (true, none)

/-- The loop of `isPlanInAllOrgs` over the listed organizations. -/
def isPlanInAllOrgsLoop (client : Client) (planGuid : String) :
    List Organization → Bool × Option Error
  | [] => (true, none)
  | org :: rest =>
    match isPlanInOrg client planGuid org.GUID with
    | (_, some err) => (false, some err)
    | (isInOrg, none) =>
      if !isInOrg then (false, none) else isPlanInAllOrgsLoop client planGuid rest

/-- The function `isPlanInAllOrgs`. -/
def isPlanInAllOrgs (client : Client) (planGuid : String) : Bool × Option Error :=
  match client.ListOrgs with
  | .error msg => (false, some (.platform msg))
  | .ok orgs => isPlanInAllOrgsLoop client planGuid orgs

/-! ## Normalisation -/

/-- The function `getServicesAccessForOrg`: the records of one organization. -/
def getServicesAccessForOrg (servicesAccess : List ServiceAccess) (orgId : String) :
    List ServiceAccess :=
  servicesAccess.foldl
    (fun servicesAccessInOrg serviceAccess =>
      if serviceAccess.OrgId = orgId then servicesAccessInOrg ++ [serviceAccess]
      else servicesAccessInOrg)
    []

/-- The loop of `splitServiceAccess`.  `all` is the whole input slice, `orgs`
the keys of the map `orgs` that are set to true. -/
def splitServiceAccessLoop (all : List ServiceAccess) (numberPlan : Int) :
    List ServiceAccess → List String → List ServiceAccess → List ServiceAccess →
      List ServiceAccess × List ServiceAccess
  | [], _, onlyWithOrg, full => (onlyWithOrg, full)
  | serviceAccess :: rest, orgs, onlyWithOrg, full =>
    if (serviceAccess.OrgId ++ serviceAccess.Plan) ∈ orgs then
      splitServiceAccessLoop all numberPlan rest orgs onlyWithOrg full
    else if ((getServicesAccessForOrg all serviceAccess.OrgId).length : Int) = numberPlan then
      splitServiceAccessLoop all numberPlan rest
        ((serviceAccess.OrgId ++ serviceAccess.Plan) :: orgs)
        (onlyWithOrg ++ [{ Service := serviceAccess.Service
                           Plan := ""
                           OrgId := serviceAccess.OrgId }])
        full
    else
      splitServiceAccessLoop all numberPlan rest orgs onlyWithOrg (full ++ [serviceAccess])

/-- The function `splitServiceAccess`, returning `(onlyWithOrg, full)`. -/
def splitServiceAccess (servicesAccess : List ServiceAccess) (numberPlan : Int) :
    List ServiceAccess × List ServiceAccess :=
  splitServiceAccessLoop servicesAccess numberPlan servicesAccess [] [] []

/-- The three variables the inner loop of `retrieveServicesAccessFromBroker`
updates. -/
structure PlanScan where
  servicesAccessInAllOrgsTemp : List ServiceAccess
  servicesAccessOrgAndPlanTemp : List ServiceAccess
  haveAllPlanInAllOrg : Bool
  deriving DecidableEq

/-- The inner loop of `retrieveServicesAccessFromBroker` over the plans of one
service.  An error is the early `return servicesAccess, err`; a public plan is
the `break`. -/
def retrievePlansLoop (client : Client) (service : ServiceOffering) :
    List ServicePlanFields → PlanScan → Except Error PlanScan
  | [], scan => .ok scan
  | plan :: rest, scan =>
    if plan.Public then
      .ok { scan with haveAllPlanInAllOrg := true }
    else
      match isPlanInAllOrgs client plan.GUID with
      | (_, some err) => .error err
      | (isPlanInAllOrg, none) =>
        if isPlanInAllOrg then
          retrievePlansLoop client service rest
            { scan with
              servicesAccessInAllOrgsTemp :=
                scan.servicesAccessInAllOrgsTemp ++
                  [{ Service := service.Label, Plan := plan.Name, OrgId := "" }] }
        else
          match getPlanVisibilitiesForPlan client plan.GUID with
          | (_, some err) => .error err
          | (visibilities, none) =>
            retrievePlansLoop client service rest
              { scan with
                haveAllPlanInAllOrg := false
                servicesAccessOrgAndPlanTemp :=
                  visibilities.foldl
                    (fun acc visibility =>
                      acc ++ [{ Service := service.Label
                                Plan := plan.Name
                                OrgId := visibility.OrganizationGUID }])
                    scan.servicesAccessOrgAndPlanTemp }

/-- The outer loop of `retrieveServicesAccessFromBroker` over the services,
from the accumulator `servicesAccess`. -/
def retrieveServicesLoop (client : Client) :
    List ServiceOffering → List ServiceAccess → List ServiceAccess × Option Error
  | [], servicesAccess => (servicesAccess, none)
  | service :: rest, servicesAccess =>
    match retrievePlansLoop client service service.Plans
        { servicesAccessInAllOrgsTemp := []
          servicesAccessOrgAndPlanTemp := []
          haveAllPlanInAllOrg := true } with
    | .error err => (servicesAccess, some err)
    | .ok scan =>
      if scan.haveAllPlanInAllOrg then
        retrieveServicesLoop client rest
          (servicesAccess ++ [{ Service := service.Label, Plan := "", OrgId := "" }])
      else
        let split := splitServiceAccess scan.servicesAccessOrgAndPlanTemp
          (service.Plans.length : Int)
        retrieveServicesLoop client rest
          (servicesAccess ++ scan.servicesAccessInAllOrgsTemp ++ split.1 ++ split.2)

/-- The function `retrieveServicesAccessFromBroker`. -/
def retrieveServicesAccessFromBroker (client : Client) (serviceBroker : ServiceBroker) :
    List ServiceAccess × Option Error :=
  retrieveServicesLoop client serviceBroker.Services []

/-! ## Concrete fixtures -/

/-- A directory of two organizations and an empty visibility store. -/
def twoOrgsClient : Client where
  ListOrgs := .ok [⟨"o1"⟩, ⟨"o2"⟩]
  Search := fun _ => .ok []

/-- A broker with one service `S` (id `g`) and its two non-public plans. -/
def twoPlansBroker : ServiceBroker :=
  { GUID := "b"
    Name := "broker"
    Services :=
      [{ GUID := "g"
         Label := "S"
         Plans := [⟨"pg1", "p1", false, "g"⟩, ⟨"pg2", "p2", false, "g"⟩] }] }

/-- A catalog whose only service carries the empty id. -/
def emptyIdBroker : ServiceBroker :=
  { GUID := "b"
    Name := "broker"
    Services := [{ GUID := "", Label := "S", Plans := [] }] }

/-- Modelled from the spec: the search of the Visibility Store,
`search(filter{planId?, orgId?})`, over a store held as the list of its grants:
the grants that agree with every key present in the filter, in store order. -/
def searchStore (store : List ServicePlanVisibilityFields) (filter : SearchFilter) :
    List ServicePlanVisibilityFields :=
  store.filter (fun visibility =>
    (match filter.service_plan_guid with
      | some planId => visibility.ServicePlanGUID == planId
      | none => true) &&
    (match filter.organization_guid with
      | some orgId => visibility.OrganizationGUID == orgId
      | none => true))

/-- Modelled from the spec: the read side of a platform whose Org Directory
lists `orgs` and whose Visibility Store holds `store`, every call succeeding. -/
def storeClient (orgs : List Organization) (store : List ServicePlanVisibilityFields) :
    Client where
  ListOrgs := .ok orgs
  Search := fun filter => .ok (searchStore store filter)

/-- A broker with one service `S` whose second plan is public. -/
def publicPlanBroker : ServiceBroker :=
  { GUID := "b"
    Name := "broker"
    Services :=
      [{ GUID := "g"
         Label := "S"
         Plans := [⟨"pg1", "p1", false, "g"⟩, ⟨"pg2", "p2", true, "g"⟩] }] }

/-! ## Apply engine -/

/-- Whether the second list of characters starts the first one. -/
def charsStartWith : List Char → List Char → Bool
  | _, [] => true
  | [], _ :: _ => false
  | c :: cs, d :: ds => c == d && charsStartWith cs ds

/-- Whether the second list of characters occurs in the first one. -/
def charsContain : List Char → List Char → Bool
  | [], sub => sub.isEmpty
  | c :: cs, sub => charsStartWith (c :: cs) sub || charsContain cs sub

/-- The library call `strings.Contains(s, substr)`. -/
def stringsContains (s substr : String) : Bool :=
  charsContain s.data substr.data

/-- The literal the source looks for in the error of a visibility creation. -/
def alreadyTaken : String :=
  "This combination of ServicePlan and Organization is already taken"

/-- The client `cf_client.Client` with its mutating calls, over the states `σ`
of the platform: the reads at a state, `ServicePlanVisibilities().Create(plan,
org)`, `ServicePlanVisibilities().Delete(guid)` and
`ServicePlans().Update(plan, serviceGuid, public)`.  A mutating call returns
the state it leaves and the message of its error, if any; a read leaves the
state as it is. -/
structure Platform (σ : Type) where
  reads : σ → Client
  CreateVisibility : σ → String → String → σ × Option String
  DeleteVisibility : σ → String → σ × Option String
  UpdatePlan : σ → ServicePlanFields → String → Bool → σ × Option String

/-- The function `updateServiceAccessWithPlanAndOrg`: resolve the plan, ask
for the grant, and swallow the error that reports the pair as taken. -/
def updateServiceAccessWithPlanAndOrg {σ : Type} (platform : Platform σ) (state : σ)
    (service : ServiceOffering) (serviceAccess : ServiceAccess) : σ × Option Error :=
  let plan := getServicePlan service serviceAccess.Plan
  if plan.GUID = "" then
    (state, some (.planNotFound serviceAccess.Service serviceAccess.Plan))
  else
    match platform.CreateVisibility state plan.GUID serviceAccess.OrgId with
    | (state, some msg) =>
      if stringsContains msg alreadyTaken then (state, none)
      else (state, some (.platform msg))
    | (state, none) => (state, none)

/-- The loop of `updateToVisibilityServicePlan` over the plans of a service. -/
def updateToVisibilityServicePlanLoop {σ : Type} (platform : Platform σ)
    (serviceGuid : String) (isPublic : Bool) : List ServicePlanFields → σ → σ × Option Error
  | [], state => (state, none)
  | plan :: rest, state =>
    match platform.UpdatePlan state plan serviceGuid isPublic with
    | (state, some msg) => (state, some (.platform msg))
    | (state, none) => updateToVisibilityServicePlanLoop platform serviceGuid isPublic rest state

/-- The function `updateToVisibilityServicePlan`. -/
def updateToVisibilityServicePlan {σ : Type} (platform : Platform σ) (state : σ)
    (service : ServiceOffering) (isPublic : Bool) : σ × Option Error :=
  updateToVisibilityServicePlanLoop platform service.GUID isPublic service.Plans state

/-- The function `updateServicesAccessToPublicServicePlan`, as a loop over the
declarations. -/
def updateServicesAccessToPublicServicePlan {σ : Type} (platform : Platform σ)
    (serviceBroker : ServiceBroker) : List ServiceAccess → σ → σ × Option Error
  | [], state => (state, none)
  | serviceAccess :: rest, state =>
    let service := getService serviceBroker serviceAccess.Service
    if service.GUID = "" then
      (state, some (.serviceNotFound serviceAccess.Service serviceBroker.Name))
    else
      match (if serviceAccess.Plan ≠ "" ∨ serviceAccess.OrgId ≠ "" then
          updateToVisibilityServicePlan platform state service false
        else
          updateToVisibilityServicePlan platform state service true) with
      | (state, some err) => (state, some err)
      | (state, none) => updateServicesAccessToPublicServicePlan platform serviceBroker rest state

/-- The first loop of `Update`, over `toCreate` (lines 620 to 630). -/
def UpdateCreateLoop {σ : Type} (platform : Platform σ) (brokerCf : ServiceBroker)
    (brokerName : String) : List ServiceAccess → σ → σ × Option Error
  | [], state => (state, none)
  | serviceAccess :: rest, state =>
    let service := getService brokerCf serviceAccess.Service
    if service.GUID = "" then
      (state, some (.serviceNotFound serviceAccess.Service brokerName))
    else
      match updateServiceAccessWithPlanAndOrg platform state service serviceAccess with
      | (state, some err) => (state, some err)
      | (state, none) => UpdateCreateLoop platform brokerCf brokerName rest state

/-- The second loop of `Update`, over `toDelete` (lines 631 to 653). -/
def UpdateDeleteLoop {σ : Type} (platform : Platform σ) (brokerCf : ServiceBroker)
    (brokerName : String) : List ServiceAccess → σ → σ × Option Error
  | [], state => (state, none)
  | serviceAccess :: rest, state =>
    let service := getService brokerCf serviceAccess.Service
    if service.GUID = "" then
      (state, some (.serviceNotFound serviceAccess.Service brokerName))
    else
      let plan := getServicePlan service serviceAccess.Plan
      if plan.GUID = "" then
        (state, some (.planNotFound serviceAccess.Service serviceAccess.Plan))
      else
        match getPlanVisibilityForPlanAndOrg (platform.reads state) plan.GUID
            serviceAccess.OrgId with
        | (_, some err) => (state, some err)
        | (planVisibility, none) =>
          if planVisibility.GUID = "" then
            UpdateDeleteLoop platform brokerCf brokerName rest state
          else
            match platform.DeleteVisibility state planVisibility.GUID with
            | (state, some msg) => (state, some (.platform msg))
            | (state, none) => UpdateDeleteLoop platform brokerCf brokerName rest state

/-- Lines 605 to 615 of `Update`: the expanded desired tuples, the observed
records, their expansion, whose error is assigned and not read, and the diff.
The result is `(toDelete, toCreate)` with the error of the first two steps. -/
def UpdateDiff (client : Client) (brokerCf : ServiceBroker)
    (servicesAccess : List ServiceAccess) :
    (List ServiceAccess × List ServiceAccess) × Option Error :=
  match getFullServicesAccessDef client brokerCf servicesAccess with
  | (_, some err) => (([], []), some err)
  | (servicesAccessDest, none) =>
    match retrieveServicesAccessFromBroker client brokerCf with
    | (_, some err) => (([], []), some err)
    | (servicesAccessSrc, none) =>
      let servicesAccessSrc := (getFullServicesAccessDef client brokerCf servicesAccessSrc).1
      (diffServicesAccess servicesAccessSrc servicesAccessDest, none)

/-- The access part of `Update` (lines 600 to 655), from the catalog snapshot
`brokerCf` fetched at the start of the pass, the declared broker name and the
desired declarations. -/
def Update {σ : Type} (platform : Platform σ) (state : σ) (brokerCf : ServiceBroker)
    (brokerName : String) (servicesAccess : List ServiceAccess) : σ × Option Error :=
  match updateServicesAccessToPublicServicePlan platform brokerCf servicesAccess state with
  | (state, some err) => (state, some err)
  | (state, none) =>
    match UpdateDiff (platform.reads state) brokerCf servicesAccess with
    | (_, some err) => (state, some err)
    | ((toDelete, toCreate), none) =>
      if toDelete.length = 0 ∧ toCreate.length = 0 then
        (state, none)
      else
        match UpdateCreateLoop platform brokerCf brokerName toCreate state with
        | (state, some err) => (state, some err)
        | (state, none) => UpdateDeleteLoop platform brokerCf brokerName toDelete state

/-! ## The platform of the specification -/

/-- Modelled from the spec: a state of the platform, with the catalog of the
broker (Catalog Provider), the Org Directory and the grants of the Visibility
Store. -/
structure PlatformState where
  catalog : ServiceBroker
  orgs : List Organization
  store : List ServicePlanVisibilityFields
  deriving DecidableEq

/-- Modelled from the spec: `create(planId, orgId)` of the Visibility Store.
A pair already granted is reported as a conflict and the store is left as it
is; otherwise the grant is added, under an identity built from its key. -/
def specCreateVisibility (state : PlatformState) (planGuid orgGuid : String) :
    PlatformState × Option String :=
  if state.store.any (fun visibility =>
      visibility.ServicePlanGUID == planGuid && visibility.OrganizationGUID == orgGuid) then
    (state, some ("CF-ServicePlanVisibilityAlreadyExists: " ++ alreadyTaken))
  else
    ({ state with
        store := state.store ++ [⟨planGuid ++ "/" ++ orgGuid, planGuid, orgGuid⟩] },
      none)

/-- Modelled from the spec: `delete(visibilityId)` of the Visibility Store. -/
def specDeleteVisibility (state : PlatformState) (visibilityGuid : String) :
    PlatformState × Option String :=
  if state.store.any (fun visibility => visibility.GUID == visibilityGuid) then
    ({ state with
        store := state.store.filter (fun visibility => visibility.GUID != visibilityGuid) },
      none)
  else
    (state, some "CF-ServicePlanVisibilityNotFound")

/-- Modelled from the spec: `setPublic(plan, serviceId, public)` of the Plan
Store, on the plans of the catalog that carry the identity of the plan. -/
def specUpdatePlan (state : PlatformState) (plan : ServicePlanFields) (_serviceGuid : String)
    (isPublic : Bool) : PlatformState × Option String :=
  ({ state with
      catalog :=
        { state.catalog with
          Services := state.catalog.Services.map (fun service =>
            { service with
              Plans := service.Plans.map (fun p =>
                if p.GUID = plan.GUID then { p with Public := isPublic } else p) }) } },
    none)

/-- Modelled from the spec: the platform over `PlatformState`. -/
def specPlatform : Platform PlatformState where
  reads := fun state => storeClient state.orgs state.store
  CreateVisibility := specCreateVisibility
  DeleteVisibility := specDeleteVisibility
  UpdatePlan := specUpdatePlan

/-- Modelled from the spec: the Visibility Store is keyed by (plan,
organization), so a state of the store holds at most one grant per pair. -/
def Keyed (store : List ServicePlanVisibilityFields) : Prop :=
  (store.map (fun visibility =>
    (visibility.ServicePlanGUID, visibility.OrganizationGUID))).Nodup

instance (store : List ServicePlanVisibilityFields) : Decidable (Keyed store) := by
  unfold Keyed
  infer_instance

/-- Every search of the client that succeeds answers from the store. -/
def AnswersFrom (client : Client) (store : List ServicePlanVisibilityFields) : Prop :=
  ∀ filter visibilities, client.Search filter = .ok visibilities →
    visibilities = searchStore store filter

/-- The explicit records the scan of `retrieveServicesAccessFromBroker` adds
for one plan that is not granted to every organization: one record per
visibility returned by the search on the plan. -/
def planRecords (client : Client) (service : ServiceOffering) (plan : ServicePlanFields) :
    List ServiceAccess :=
  (getPlanVisibilitiesForPlan client plan.GUID).1.map
    (fun visibility => ⟨service.Label, plan.Name, visibility.OrganizationGUID⟩)

/-- The records one service contributes to the output of
`retrieveServicesAccessFromBroker` once its plans are scanned (lines 190 to
199). -/
def serviceRecords (service : ServiceOffering) (scan : PlanScan) : List ServiceAccess :=
  if scan.haveAllPlanInAllOrg then
    [{ Service := service.Label, Plan := "", OrgId := "" }]
  else
    scan.servicesAccessInAllOrgsTemp ++
      (splitServiceAccess scan.servicesAccessOrgAndPlanTemp (service.Plans.length : Int)).1 ++
      (splitServiceAccess scan.servicesAccessOrgAndPlanTemp (service.Plans.length : Int)).2

/-- A plan is granted to an organization, as the engine reads the store: the
search on the pair returns a first grant whose id is not empty. -/
def visibleIn (store : List ServicePlanVisibilityFields) (planGuid orgGuid : String) : Bool :=
  match searchStore store
      { service_plan_guid := some planGuid, organization_guid := some orgGuid } with
  | [] => false
  | visibility :: _ => decide (visibility.GUID ≠ "")

/-- A plan is granted to every organization of the directory. -/
def grantedToAll (store : List ServicePlanVisibilityFields) (orgs : List Organization)
    (planGuid : String) : Bool :=
  orgs.all (fun org => visibleIn store planGuid org.GUID)

/-! ## Fixtures of the reconciliation scenarios -/

/-- A broker with one service `S` whose plans are named `bc` and `c`. -/
def collidingBroker : ServiceBroker :=
  { GUID := "b"
    Name := "broker"
    Services :=
      [{ GUID := "g"
         Label := "S"
         Plans := [⟨"g1", "bc", false, "g"⟩, ⟨"g2", "c", false, "g"⟩] }] }

/-- The broker of the end-to-end scenario: service `db` with the non-public
plans `small` and `large`. -/
def dbBroker : ServiceBroker :=
  { GUID := "b"
    Name := "broker"
    Services :=
      [{ GUID := "g"
         Label := "db"
         Plans := [⟨"pg1", "small", false, "g"⟩, ⟨"pg2", "large", false, "g"⟩] }] }

/-- The platform of the end-to-end scenario: organizations `org-a` and
`org-b`, no grant. -/
def dbState : PlatformState :=
  { catalog := dbBroker, orgs := [⟨"org-a"⟩, ⟨"org-b"⟩], store := [] }

/-- A platform with service `S` (plans `p1`, `p2`), organizations `o1` and
`o2`, and no grant. -/
def emptyStoreState : PlatformState :=
  { catalog := twoPlansBroker, orgs := [⟨"o1"⟩, ⟨"o2"⟩], store := [] }

/-- The platform `emptyStoreState` once `p1` is granted to `o1` and `o2`. -/
def p1GrantedState : PlatformState :=
  { catalog := twoPlansBroker
    orgs := [⟨"o1"⟩, ⟨"o2"⟩]
    store := [⟨"pg1/o1", "pg1", "o1"⟩, ⟨"pg1/o2", "pg1", "o2"⟩] }

/-- A broker with service `S` (plans `p1`, `p2`) followed by a service `T`
without plans whose id is empty. -/
def unresolvedLabelBroker : ServiceBroker :=
  { GUID := "b"
    Name := "broker"
    Services :=
      [{ GUID := "g"
         Label := "S"
         Plans := [⟨"pg1", "p1", false, "g"⟩, ⟨"pg2", "p2", false, "g"⟩] },
       { GUID := "", Label := "T", Plans := [] }] }

/-- A platform over `unresolvedLabelBroker` where `p2` is granted to `o1`. -/
def staleGrantState : PlatformState :=
  { catalog := unresolvedLabelBroker
    orgs := [⟨"o1"⟩, ⟨"o2"⟩]
    store := [⟨"v1", "pg2", "o1"⟩] }

/-- The platform of the specification with a visibility creation that is
refused with an error other than the conflict. -/
def refusingPlatform : Platform PlatformState :=
  { specPlatform with
    CreateVisibility := fun state _ _ => (state, some "CF-NotAuthorized") }

/-- A broker with one service `S` whose first plan has the empty name. -/
def emptyPlanNameBroker : ServiceBroker :=
  { GUID := "b"
    Name := "broker"
    Services :=
      [{ GUID := "g"
         Label := "S"
         Plans := [⟨"pg1", "", false, "g"⟩, ⟨"pg2", "p2", false, "g"⟩] }] }

/-- The platform `emptyStoreState` once `p1` and `p2` are each granted to
`o1` and `o2`. -/
def allGrantedState : PlatformState :=
  { catalog := twoPlansBroker
    orgs := [⟨"o1"⟩, ⟨"o2"⟩]
    store := [⟨"pg1/o1", "pg1", "o1"⟩, ⟨"pg1/o2", "pg1", "o2"⟩, ⟨"pg2/o1", "pg2", "o1"⟩,
      ⟨"pg2/o2", "pg2", "o2"⟩] }

/-- A catalog with a service `S` of two non-public plans, a service `U`
without plans and a service `P` whose only plan is public. -/
def threeServicesBroker : ServiceBroker :=
  { GUID := "b"
    Name := "broker"
    Services :=
      [{ GUID := "g"
         Label := "S"
         Plans := [⟨"pg1", "p1", false, "g"⟩, ⟨"pg2", "p2", false, "g"⟩] },
       { GUID := "h", Label := "U", Plans := [] },
       { GUID := "k", Label := "P", Plans := [⟨"pk1", "q1", true, "k"⟩] }] }

/-- A client whose Org Directory is empty and whose searches all fail. -/
def emptyDirectoryClient : Client where
  ListOrgs := .ok []
  Search := fun _ => .error "down"

/-- The platform of the specification with a visibility creation that is
refused, with an error other than the conflict, for the organization `o2`
alone. -/
def refusingForO2Platform : Platform PlatformState :=
  { specPlatform with
    CreateVisibility := fun state planGuid orgGuid =>
      if orgGuid = "o2" then (state, some "CF-NotAuthorized")
      else specCreateVisibility state planGuid orgGuid }

end CfServiceBroker

/-! # The stack data source (`resources/stacks.go`) -/

namespace CfStack

/-- The fields of `models.Stack` the data source reads. -/
structure Stack where
  GUID : String
  Name : String
  deriving DecidableEq

/-- The resource data of the stack data source: the parameters `first`, `guid`
and `name`, and the id that `SetId` writes. -/
structure ResourceData where
  first : Bool
  guid : String
  name : String
  id : String
  deriving DecidableEq

/-- Errors of the data source: the `fmt.Errorf` of the source and the errors
returned by the client. -/
inductive Error where
  | missingParam
  | platform (msg : String)
  deriving DecidableEq

/-- The calls of `client.Stack()` the data source makes. -/
structure Client where
  FindAll : Except String (List Stack)
  FindByGUID : String → Except String Stack
  FindByName : String → Except String Stack

/-- How a call of `DataSourceRead` ends: it returns, with the resource data as
written so far and its error, or it faults on an index out of range, with the
index and the length of the slice. -/
inductive Outcome where
  | returned (d : ResourceData) (err : Option Error)
  | indexOutOfRange (index length : Nat)
  deriving DecidableEq

/-- The function `flattenStack`. -/
def flattenStack (d : ResourceData) (s : Stack) : ResourceData :=
  { d with id := s.GUID, name := s.Name }

/-- The function `DataSourceRead` of `CfStackResource`; the slice `stacks` of
the source is `stackList`, and the access `stacks[0]` faults when the slice is
empty. -/
def DataSourceRead (client : Client) (d : ResourceData) : Outcome :=
  if d.first then
    match client.FindAll with
    | .error msg => .returned d (some (.platform msg))
    | .ok stackList =>
      match stackList[0]? with
      | none => .indexOutOfRange 0 stackList.length
      | some stack => .returned (flattenStack d stack) none
  else
    let stackId := d.guid
    let name := d.name
    if name = "" ∧ stackId = "" then
      .returned d (some .missingParam)
    else
      match (if stackId ≠ "" then client.FindByGUID stackId else client.FindByName name) with
      | .error msg => .returned d (some (.platform msg))
      | .ok stack => .returned (flattenStack d stack) none

/-- A client whose platform holds no stack. -/
def noStackClient : Client where
  FindAll := .ok []
  FindByGUID := fun _ => .error "CF-StackNotFound"
  FindByName := fun _ => .error "CF-StackNotFound"

end CfStack

namespace CfServiceBroker

/-! ## Loop lemmas -/

theorem foldl_append_singleton_map {α β : Type} (f : α → β) (l : List α) (init : List β) :
    l.foldl (fun acc x => acc ++ [f x]) init = init ++ l.map f := by
  induction l generalizing init with
  | nil => simp
  | cons x xs ih => simp [ih]

theorem foldl_append_if_filter {α : Type} (p : α → Bool) (l : List α) (init : List α) :
    l.foldl (fun acc x => if p x then acc ++ [x] else acc) init = init ++ l.filter p := by
  induction l generalizing init with
  | nil => simp
  | cons x xs ih =>
    by_cases hx : p x = true
    · simp [ih, hx]
    · simp [ih, hx]

theorem getServicesAccessDefWithOnlyOrg_eq_map (service : ServiceOffering)
    (serviceAccess : ServiceAccess) :
    getServicesAccessDefWithOnlyOrg service serviceAccess =
      service.Plans.map (fun plan => ⟨serviceAccess.Service, plan.Name, serviceAccess.OrgId⟩) := by
  unfold getServicesAccessDefWithOnlyOrg
  rw [foldl_append_singleton_map
    (fun plan : ServicePlanFields =>
      (⟨serviceAccess.Service, plan.Name, serviceAccess.OrgId⟩ : ServiceAccess))]
  simp

theorem getServicesAccessDefWithOnlyPlan_ok (client : Client) (service : ServiceOffering)
    (serviceAccess : ServiceAccess) (orgs : List Organization)
    (horgs : client.ListOrgs = .ok orgs) :
    getServicesAccessDefWithOnlyPlan client service serviceAccess =
      (orgs.map (fun org => ⟨serviceAccess.Service, serviceAccess.Plan, org.GUID⟩), none) := by
  unfold getServicesAccessDefWithOnlyPlan
  rw [horgs]
  simp only
  rw [foldl_append_singleton_map
    (fun org : Organization =>
      (⟨serviceAccess.Service, serviceAccess.Plan, org.GUID⟩ : ServiceAccess))]
  simp

theorem getServicesAccessDefWithOnlyPlan_error (client : Client) (service : ServiceOffering)
    (serviceAccess : ServiceAccess) (msg : String)
    (horgs : client.ListOrgs = .error msg) :
    getServicesAccessDefWithOnlyPlan client service serviceAccess =
      ([], some (.platform msg)) := by
  unfold getServicesAccessDefWithOnlyPlan
  rw [horgs]

/-- With the plan present and the service resolved, the result of
`getFullServiceAccessDef` is that of `getServicesAccessDefWithOnlyPlan`,
whatever the organization field holds. -/
theorem getFullServiceAccessDef_plan_ok (client : Client) (serviceBroker : ServiceBroker)
    (serviceAccess : ServiceAccess) (orgs : List Organization)
    (hplan : serviceAccess.Plan ≠ "")
    (hsvc : (getService serviceBroker serviceAccess.Service).GUID ≠ "")
    (horgs : client.ListOrgs = .ok orgs) :
    getFullServiceAccessDef client serviceBroker serviceAccess =
      (orgs.map (fun org => ⟨serviceAccess.Service, serviceAccess.Plan, org.GUID⟩), none) := by
  unfold getFullServiceAccessDef
  simp [hplan, hsvc, getServicesAccessDefWithOnlyPlan_ok client _ serviceAccess orgs horgs]

theorem getFullServiceAccessDef_plan_error (client : Client) (serviceBroker : ServiceBroker)
    (serviceAccess : ServiceAccess) (msg : String)
    (hplan : serviceAccess.Plan ≠ "")
    (hsvc : (getService serviceBroker serviceAccess.Service).GUID ≠ "")
    (horgs : client.ListOrgs = .error msg) :
    getFullServiceAccessDef client serviceBroker serviceAccess = ([], some (.platform msg)) := by
  unfold getFullServiceAccessDef
  simp [hplan, hsvc, getServicesAccessDefWithOnlyPlan_error client _ serviceAccess msg horgs]

theorem getServicesAccessDefWithOnlyPlan_err_platform (client : Client)
    (service : ServiceOffering) (serviceAccess : ServiceAccess) :
    (getServicesAccessDefWithOnlyPlan client service serviceAccess).2 = none ∨
      ∃ msg, getServicesAccessDefWithOnlyPlan client service serviceAccess =
        ([], some (.platform msg)) := by
  unfold getServicesAccessDefWithOnlyPlan
  cases client.ListOrgs with
  | error msg => exact Or.inr ⟨msg, rfl⟩
  | ok orgs => exact Or.inl rfl

/-- Once the service is resolved, `getFullServiceAccessDef` returns no error or
a platform error with no tuples. -/
theorem getFullServiceAccessDef_resolved_err (client : Client) (serviceBroker : ServiceBroker)
    (serviceAccess : ServiceAccess)
    (hsvc : (getService serviceBroker serviceAccess.Service).GUID ≠ "") :
    (getFullServiceAccessDef client serviceBroker serviceAccess).2 = none ∨
      ∃ msg, getFullServiceAccessDef client serviceBroker serviceAccess =
        ([], some (.platform msg)) := by
  unfold getFullServiceAccessDef
  simp only [hsvc, if_false]
  by_cases hplan : serviceAccess.Plan = ""
  · by_cases horg : serviceAccess.OrgId = "" <;> simp [hplan, horg]
  · rcases getServicesAccessDefWithOnlyPlan_err_platform client
        (getService serviceBroker serviceAccess.Service) serviceAccess with h | ⟨msg, h⟩
    · left
      simp [hplan, h]
    · right
      exact ⟨msg, by simp [hplan, h]⟩

theorem getFullServiceAccessDef_unresolved (client : Client) (serviceBroker : ServiceBroker)
    (serviceAccess : ServiceAccess)
    (hsvc : (getService serviceBroker serviceAccess.Service).GUID = "") :
    getFullServiceAccessDef client serviceBroker serviceAccess =
      ([], some (.serviceNotFound serviceAccess.Service serviceBroker.Name)) := by
  unfold getFullServiceAccessDef
  simp [hsvc]

/-- The function `getService` returns the first service, in catalog order,
whose label or id is the name. -/
theorem getService_first_match (serviceBroker : ServiceBroker) (serviceName : String)
    (pre post : List ServiceOffering) (service : ServiceOffering)
    (hcat : serviceBroker.Services = pre ++ service :: post)
    (hpre : ∀ x ∈ pre, ¬(x.Label = serviceName ∨ x.GUID = serviceName))
    (hmatch : service.Label = serviceName ∨ service.GUID = serviceName) :
    getService serviceBroker serviceName = service := by
  have hfind : serviceBroker.Services.find?
      (fun service => service.Label == serviceName || service.GUID == serviceName)
      = some service := by
    rw [List.find?_eq_some]
    refine ⟨by simpa using hmatch, pre, post, hcat, ?_⟩
    intro a ha
    simpa using hpre a ha
  unfold getService
  rw [hfind]

theorem getService_no_match (serviceBroker : ServiceBroker) (serviceName : String)
    (hnone : ∀ x ∈ serviceBroker.Services, ¬(x.Label = serviceName ∨ x.GUID = serviceName)) :
    getService serviceBroker serviceName = default := by
  have hfind : serviceBroker.Services.find?
      (fun service => service.Label == serviceName || service.GUID == serviceName)
      = none := by
    rw [List.find?_eq_none]
    intro x hx
    simpa using hnone x hx
  unfold getService
  rw [hfind]

/-- The service returned by `getService` has the empty id exactly when no
service matches or the first match carries the empty id. -/
theorem getService_guid_empty_iff (serviceBroker : ServiceBroker) (serviceName : String) :
    (getService serviceBroker serviceName).GUID = "" ↔
      ((∀ x ∈ serviceBroker.Services, ¬(x.Label = serviceName ∨ x.GUID = serviceName)) ∨
        ∃ pre service post, serviceBroker.Services = pre ++ service :: post ∧
          (∀ x ∈ pre, ¬(x.Label = serviceName ∨ x.GUID = serviceName)) ∧
          (service.Label = serviceName ∨ service.GUID = serviceName) ∧ service.GUID = "") := by
  constructor
  · intro hguid
    cases hfind : serviceBroker.Services.find?
        (fun service => service.Label == serviceName || service.GUID == serviceName) with
    | none =>
      left
      rw [List.find?_eq_none] at hfind
      intro x hx
      simpa using hfind x hx
    | some service =>
      right
      have hget : getService serviceBroker serviceName = service := by
        unfold getService
        rw [hfind]
      rw [List.find?_eq_some] at hfind
      obtain ⟨hp, pre, post, hcat, hpre⟩ := hfind
      refine ⟨pre, service, post, hcat, ?_, by simpa using hp, by rw [← hget]; exact hguid⟩
      intro x hx
      simpa using hpre x hx
  · rintro (hnone | ⟨pre, service, post, hcat, hpre, hmatch, hguid⟩)
    · rw [getService_no_match serviceBroker serviceName hnone]
      rfl
    · rw [getService_first_match serviceBroker serviceName pre post service hcat hpre hmatch]
      exact hguid

/-! ## Expansion of one declaration -/

/-- C1: on the catalog with service `S` (plans `p1`, `p2`) and the directory
`[o1, o2]`, the declaration `(S, p1, o1)` has plan and organization present, its
service resolves and its plan belongs to the service, yet
`getFullServiceAccessDef` does not return the one-element list of that tuple:
the branch for a present plan overwrites it with one tuple per organization of
the directory, here `[(S, p1, o1), (S, p1, o2)]`. -/
theorem getFullServiceAccessDef_plan_and_org_overwritten :
    (getService twoPlansBroker "S").GUID ≠ "" ∧
    (getServicePlan (getService twoPlansBroker "S") "p1").GUID ≠ "" ∧
    getFullServiceAccessDef twoOrgsClient twoPlansBroker ⟨"S", "p1", "o1"⟩ =
      ([⟨"S", "p1", "o1"⟩, ⟨"S", "p1", "o2"⟩], none) ∧
    getFullServiceAccessDef twoOrgsClient twoPlansBroker ⟨"S", "p1", "o1"⟩ ≠
      ([⟨"S", "p1", "o1"⟩], none) := by
  refine ⟨by decide, by decide, by decide, by decide⟩

/-- C2, as stated, fails: `nope` is neither the name nor the id of a plan of
the resolved service `S`, and `getFullServiceAccessDef` on `(S, nope, ∅)`
returns two tuples and no error, so in particular no `planNotFound`. -/
theorem getFullServiceAccessDef_unknown_plan_no_error :
    (getService twoPlansBroker "S").GUID ≠ "" ∧
    (∀ plan ∈ (getService twoPlansBroker "S").Plans,
      ¬((plan.Name = "nope" ∨ plan.GUID = "nope") ∧
        plan.ServiceOfferingGUID = (getService twoPlansBroker "S").GUID)) ∧
    getFullServiceAccessDef twoOrgsClient twoPlansBroker ⟨"S", "nope", ""⟩ =
      ([⟨"S", "nope", "o1"⟩, ⟨"S", "nope", "o2"⟩], none) ∧
    ¬ ((∃ a b, (getFullServiceAccessDef twoOrgsClient twoPlansBroker ⟨"S", "nope", ""⟩).2 =
          some (.planNotFound a b)) ∧
        (getFullServiceAccessDef twoOrgsClient twoPlansBroker ⟨"S", "nope", ""⟩).1 = []) := by
  have heval : getFullServiceAccessDef twoOrgsClient twoPlansBroker ⟨"S", "nope", ""⟩ =
      ([⟨"S", "nope", "o1"⟩, ⟨"S", "nope", "o2"⟩], none) := by decide
  refine ⟨by decide, by decide, heval, ?_⟩
  rw [heval]
  rintro ⟨-, hnil⟩
  exact absurd hnil (by simp)

/-- C2, amended: for a declaration with plan present and organization absent
whose service resolves, expansion does not look the plan up.  Even when the
declared plan is not the name or id of any plan owned by the resolved service,
`getFullServiceAccessDef` never returns `planNotFound`; when the directory
lists `orgs` it returns one tuple `(service, plan, o)` per organization, and
when the listing fails it returns that platform error and no tuples. -/
theorem getFullServiceAccessDef_skips_plan_lookup (client : Client)
    (serviceBroker : ServiceBroker) (serviceAccess : ServiceAccess)
    (hplan : serviceAccess.Plan ≠ "") (_horg : serviceAccess.OrgId = "")
    (hsvc : (getService serviceBroker serviceAccess.Service).GUID ≠ "")
    (_hunknown : ∀ plan ∈ (getService serviceBroker serviceAccess.Service).Plans,
      ¬((plan.Name = serviceAccess.Plan ∨ plan.GUID = serviceAccess.Plan) ∧
        plan.ServiceOfferingGUID = (getService serviceBroker serviceAccess.Service).GUID)) :
    (∀ a b, (getFullServiceAccessDef client serviceBroker serviceAccess).2 ≠
        some (.planNotFound a b)) ∧
    (∀ orgs, client.ListOrgs = .ok orgs →
      getFullServiceAccessDef client serviceBroker serviceAccess =
        (orgs.map (fun org => ⟨serviceAccess.Service, serviceAccess.Plan, org.GUID⟩), none)) ∧
    (∀ msg, client.ListOrgs = .error msg →
      getFullServiceAccessDef client serviceBroker serviceAccess =
        ([], some (.platform msg))) := by
  refine ⟨?_, ?_, ?_⟩
  · intro a b
    rcases getFullServiceAccessDef_resolved_err client serviceBroker serviceAccess hsvc
      with h | ⟨msg, h⟩
    · rw [h]
      simp
    · rw [h]
      simp
  · intro orgs horgs
    exact getFullServiceAccessDef_plan_ok client serviceBroker serviceAccess orgs hplan hsvc horgs
  · intro msg horgs
    exact getFullServiceAccessDef_plan_error client serviceBroker serviceAccess msg hplan hsvc
      horgs

/-- Witness of the amended C2 on the declaration `(S, nope, ∅)`. -/
theorem getFullServiceAccessDef_skips_plan_lookup_witness :
    (∀ a b, (getFullServiceAccessDef twoOrgsClient twoPlansBroker ⟨"S", "nope", ""⟩).2 ≠
        some (.planNotFound a b)) ∧
    (∀ orgs, twoOrgsClient.ListOrgs = .ok orgs →
      getFullServiceAccessDef twoOrgsClient twoPlansBroker ⟨"S", "nope", ""⟩ =
        (orgs.map (fun org => ⟨"S", "nope", org.GUID⟩), none)) ∧
    (∀ msg, twoOrgsClient.ListOrgs = .error msg →
      getFullServiceAccessDef twoOrgsClient twoPlansBroker ⟨"S", "nope", ""⟩ =
        ([], some (.platform msg))) :=
  getFullServiceAccessDef_skips_plan_lookup twoOrgsClient twoPlansBroker
    ⟨"S", "nope", ""⟩ (by decide) (by decide) (by decide) (by decide)

/-- C3, as stated, fails: the catalog holds a service labelled `S` whose id is
empty; `getService` finds it, and `getFullServiceAccessDef` still returns the
`serviceNotFound` error with no tuples, although a service of the catalog has
its label equal to the declared service. -/
theorem getFullServiceAccessDef_serviceNotFound_with_match :
    getFullServiceAccessDef twoOrgsClient emptyIdBroker ⟨"S", "p1", "o1"⟩ =
      ([], some (.serviceNotFound "S" "broker")) ∧
    (∃ service ∈ emptyIdBroker.Services, service.Label = "S" ∨ service.GUID = "S") ∧
    ¬ (getFullServiceAccessDef twoOrgsClient emptyIdBroker ⟨"S", "p1", "o1"⟩ =
        ([], some (.serviceNotFound "S" "broker")) ↔
      ¬ ∃ service ∈ emptyIdBroker.Services, service.Label = "S" ∨ service.GUID = "S") := by
  have heval : getFullServiceAccessDef twoOrgsClient emptyIdBroker ⟨"S", "p1", "o1"⟩ =
      ([], some (.serviceNotFound "S" "broker")) := by decide
  have hmatch : ∃ service ∈ emptyIdBroker.Services,
      service.Label = "S" ∨ service.GUID = "S" := by decide
  exact ⟨heval, hmatch, fun hiff => (hiff.mp heval) hmatch⟩

/-- C3, amended: `getFullServiceAccessDef` returns a `serviceNotFound` error
if and only if no service of the catalog has its label or its id equal to the
declared service, or the first such service in catalog order has the empty id;
the result is then exactly the empty tuple list with the error naming the
declared service and the broker.  On a catalog all of whose services have a
non-empty id this is: if and only if no service has its label or id equal to
the declared service. -/
theorem getFullServiceAccessDef_serviceNotFound_iff (client : Client)
    (serviceBroker : ServiceBroker) (serviceAccess : ServiceAccess) :
    ((∃ a b, (getFullServiceAccessDef client serviceBroker serviceAccess).2 =
        some (.serviceNotFound a b)) ↔
      ((∀ x ∈ serviceBroker.Services,
          ¬(x.Label = serviceAccess.Service ∨ x.GUID = serviceAccess.Service)) ∨
        ∃ pre service post, serviceBroker.Services = pre ++ service :: post ∧
          (∀ x ∈ pre, ¬(x.Label = serviceAccess.Service ∨ x.GUID = serviceAccess.Service)) ∧
          (service.Label = serviceAccess.Service ∨ service.GUID = serviceAccess.Service) ∧
          service.GUID = "")) ∧
    ((∃ a b, (getFullServiceAccessDef client serviceBroker serviceAccess).2 =
        some (.serviceNotFound a b)) →
      getFullServiceAccessDef client serviceBroker serviceAccess =
        ([], some (.serviceNotFound serviceAccess.Service serviceBroker.Name))) ∧
    ((∀ x ∈ serviceBroker.Services, x.GUID ≠ "") →
      (getFullServiceAccessDef client serviceBroker serviceAccess =
          ([], some (.serviceNotFound serviceAccess.Service serviceBroker.Name)) ↔
        ∀ x ∈ serviceBroker.Services,
          ¬(x.Label = serviceAccess.Service ∨ x.GUID = serviceAccess.Service))) := by
  have hkey : (∃ a b, (getFullServiceAccessDef client serviceBroker serviceAccess).2 =
        some (.serviceNotFound a b)) ↔
      (getService serviceBroker serviceAccess.Service).GUID = "" := by
    constructor
    · rintro ⟨a, b, hab⟩
      by_contra hsvc
      rcases getFullServiceAccessDef_resolved_err client serviceBroker serviceAccess hsvc
        with h | ⟨msg, h⟩
      · rw [h] at hab
        exact absurd hab (by simp)
      · rw [h] at hab
        exact absurd hab (by simp)
    · intro hsvc
      rw [getFullServiceAccessDef_unresolved client serviceBroker serviceAccess hsvc]
      exact ⟨_, _, rfl⟩
  refine ⟨?_, ?_, ?_⟩
  · rw [hkey]
    exact getService_guid_empty_iff serviceBroker serviceAccess.Service
  · intro h
    exact getFullServiceAccessDef_unresolved client serviceBroker serviceAccess (hkey.mp h)
  · intro hwf
    constructor
    · intro h
      have hguid : (getService serviceBroker serviceAccess.Service).GUID = "" :=
        hkey.mp ⟨_, _, by rw [h]⟩
      rcases (getService_guid_empty_iff serviceBroker serviceAccess.Service).mp hguid
        with hnone | ⟨pre, service, post, hcat, -, -, hempty⟩
      · exact hnone
      · exact absurd hempty (hwf service (by rw [hcat]; simp))
    · intro hnone
      exact getFullServiceAccessDef_unresolved client serviceBroker serviceAccess
        ((getService_guid_empty_iff serviceBroker serviceAccess.Service).mpr (Or.inl hnone))

/-- C4: for a declaration with plan present and organization absent whose
service resolves, and a directory listing `orgs`, `getFullServiceAccessDef`
returns without error exactly the tuples `(service, plan, o)`, one per
organization `o` of the directory, in directory order. -/
theorem getFullServiceAccessDef_only_plan (client : Client) (serviceBroker : ServiceBroker)
    (serviceAccess : ServiceAccess) (orgs : List Organization)
    (hplan : serviceAccess.Plan ≠ "") (_horg : serviceAccess.OrgId = "")
    (hsvc : (getService serviceBroker serviceAccess.Service).GUID ≠ "")
    (horgs : client.ListOrgs = .ok orgs) :
    getFullServiceAccessDef client serviceBroker serviceAccess =
      (orgs.map (fun org => ⟨serviceAccess.Service, serviceAccess.Plan, org.GUID⟩), none) :=
  getFullServiceAccessDef_plan_ok client serviceBroker serviceAccess orgs hplan hsvc horgs

/-- Witness of C4, the example of the specification: with plans `p1`, `p2` and
organizations `o1`, `o2`, the declaration `(S, p1, ∅)` expands to
`[(S, p1, o1), (S, p1, o2)]`. -/
theorem getFullServiceAccessDef_only_plan_witness :
    getFullServiceAccessDef twoOrgsClient twoPlansBroker ⟨"S", "p1", ""⟩ =
      ([⟨"S", "p1", "o1"⟩, ⟨"S", "p1", "o2"⟩], none) :=
  getFullServiceAccessDef_only_plan twoOrgsClient twoPlansBroker ⟨"S", "p1", ""⟩
    [⟨"o1"⟩, ⟨"o2"⟩] (by decide) (by decide) (by decide) rfl

/-- C5: for a declaration with organization present and plan absent whose
service resolves, `getFullServiceAccessDef` returns without error exactly the
tuples `(service, p.Name, org)`, one per plan `p` of the resolved service, in
catalog order; the result is the same for every client, so the directory is not
consulted. -/
theorem getFullServiceAccessDef_only_org (client : Client) (serviceBroker : ServiceBroker)
    (serviceAccess : ServiceAccess)
    (horg : serviceAccess.OrgId ≠ "") (hplan : serviceAccess.Plan = "")
    (hsvc : (getService serviceBroker serviceAccess.Service).GUID ≠ "") :
    getFullServiceAccessDef client serviceBroker serviceAccess =
      ((getService serviceBroker serviceAccess.Service).Plans.map
        (fun plan => ⟨serviceAccess.Service, plan.Name, serviceAccess.OrgId⟩), none) := by
  unfold getFullServiceAccessDef
  simp [hplan, horg, hsvc, getServicesAccessDefWithOnlyOrg_eq_map]

/-- Witness of C5, the example of the specification: the declaration
`(S, ∅, o1)` expands to `[(S, p1, o1), (S, p2, o1)]`, here with a client whose
every call fails. -/
theorem getFullServiceAccessDef_only_org_witness :
    getFullServiceAccessDef ⟨.error "down", fun _ => .error "down"⟩ twoPlansBroker
        ⟨"S", "", "o1"⟩ =
      ([⟨"S", "p1", "o1"⟩, ⟨"S", "p2", "o1"⟩], none) :=
  getFullServiceAccessDef_only_org ⟨.error "down", fun _ => .error "down"⟩ twoPlansBroker
    ⟨"S", "", "o1"⟩ (by decide) (by decide) (by decide)

/-! ## Expansion of a list of declarations -/

theorem getFullServicesAccessDefLoop_all_ok (client : Client) (serviceBroker : ServiceBroker)
    (servicesAccess : List ServiceAccess) (fullServicesAccess : List ServiceAccess)
    (hok : ∀ serviceAccess ∈ servicesAccess,
      (getFullServiceAccessDef client serviceBroker serviceAccess).2 = none) :
    getFullServicesAccessDefLoop client serviceBroker servicesAccess fullServicesAccess =
      (fullServicesAccess ++ servicesAccess.flatMap
        (fun serviceAccess => (getFullServiceAccessDef client serviceBroker serviceAccess).1),
       none) := by
  induction servicesAccess generalizing fullServicesAccess with
  | nil => simp [getFullServicesAccessDefLoop]
  | cons serviceAccess rest ih =>
    have hhead := hok serviceAccess (by simp)
    have htail : ∀ x ∈ rest, (getFullServiceAccessDef client serviceBroker x).2 = none :=
      fun x hx => hok x (by simp [hx])
    rw [getFullServicesAccessDefLoop]
    cases hres : getFullServiceAccessDef client serviceBroker serviceAccess with
    | mk temp err =>
      rw [hres] at hhead
      simp only at hhead
      subst hhead
      simp only
      rw [ih _ htail]
      simp [hres]

theorem getFullServicesAccessDefLoop_first_error (client : Client)
    (serviceBroker : ServiceBroker) (pre post : List ServiceAccess)
    (serviceAccess : ServiceAccess) (err : Error) (fullServicesAccess : List ServiceAccess)
    (hpre : ∀ x ∈ pre, (getFullServiceAccessDef client serviceBroker x).2 = none)
    (herr : (getFullServiceAccessDef client serviceBroker serviceAccess).2 = some err) :
    getFullServicesAccessDefLoop client serviceBroker (pre ++ serviceAccess :: post)
      fullServicesAccess = ([], some err) := by
  induction pre generalizing fullServicesAccess with
  | nil =>
    rw [List.nil_append, getFullServicesAccessDefLoop]
    cases hres : getFullServiceAccessDef client serviceBroker serviceAccess with
    | mk temp e =>
      rw [hres] at herr
      simp only at herr
      subst herr
      rfl
  | cons x rest ih =>
    have hhead := hpre x (by simp)
    have htail : ∀ y ∈ rest, (getFullServiceAccessDef client serviceBroker y).2 = none :=
      fun y hy => hpre y (by simp [hy])
    rw [List.cons_append, getFullServicesAccessDefLoop]
    cases hres : getFullServiceAccessDef client serviceBroker x with
    | mk temp e =>
      rw [hres] at hhead
      simp only at hhead
      subst hhead
      simp only
      exact ih _ htail

/-- C6: `getFullServicesAccessDef` over a list of declarations returns, when
every single expansion succeeds, the concatenation in declaration order of the
single results and no error; when the list is `pre ++ d :: post`, every
declaration of `pre` expands without error and `d` fails with `err`, it returns
`err` together with the empty tuple list. -/
theorem getFullServicesAccessDef_concat_or_first_error (client : Client)
    (serviceBroker : ServiceBroker) (servicesAccess : List ServiceAccess) :
    ((∀ serviceAccess ∈ servicesAccess,
        (getFullServiceAccessDef client serviceBroker serviceAccess).2 = none) →
      getFullServicesAccessDef client serviceBroker servicesAccess =
        (servicesAccess.flatMap
          (fun serviceAccess =>
            (getFullServiceAccessDef client serviceBroker serviceAccess).1), none)) ∧
    (∀ pre serviceAccess post err, servicesAccess = pre ++ serviceAccess :: post →
      (∀ x ∈ pre, (getFullServiceAccessDef client serviceBroker x).2 = none) →
      (getFullServiceAccessDef client serviceBroker serviceAccess).2 = some err →
      getFullServicesAccessDef client serviceBroker servicesAccess = ([], some err)) := by
  constructor
  · intro hok
    unfold getFullServicesAccessDef
    rw [getFullServicesAccessDefLoop_all_ok client serviceBroker servicesAccess [] hok]
    simp
  · intro pre serviceAccess post err hlist hpre herr
    unfold getFullServicesAccessDef
    rw [hlist]
    exact getFullServicesAccessDefLoop_first_error client serviceBroker pre post serviceAccess
      err [] hpre herr

/-- Witness of C6: two declarations that both expand, and a list whose second
declaration names an unknown service after one that expands. -/
theorem getFullServicesAccessDef_concat_or_first_error_witness :
    getFullServicesAccessDef twoOrgsClient twoPlansBroker [⟨"S", "p1", ""⟩, ⟨"S", "", "o1"⟩] =
      ([⟨"S", "p1", "o1"⟩, ⟨"S", "p1", "o2"⟩, ⟨"S", "p1", "o1"⟩, ⟨"S", "p2", "o1"⟩], none) ∧
    getFullServicesAccessDef twoOrgsClient twoPlansBroker
        [⟨"S", "p1", ""⟩, ⟨"T", "p1", ""⟩, ⟨"S", "", "o1"⟩] =
      ([], some (.serviceNotFound "T" "broker")) :=
  ⟨(getFullServicesAccessDef_concat_or_first_error twoOrgsClient twoPlansBroker
      [⟨"S", "p1", ""⟩, ⟨"S", "", "o1"⟩]).1 (by decide),
   (getFullServicesAccessDef_concat_or_first_error twoOrgsClient twoPlansBroker
      [⟨"S", "p1", ""⟩, ⟨"T", "p1", ""⟩, ⟨"S", "", "o1"⟩]).2
      [⟨"S", "p1", ""⟩] ⟨"T", "p1", ""⟩ [⟨"S", "", "o1"⟩] (.serviceNotFound "T" "broker")
      rfl (by decide) (by decide)⟩

/-! ## Diff -/

theorem containsServiceAccess_iff_fields (servicesAccess : List ServiceAccess)
    (serviceAccessToFind : ServiceAccess) :
    containsServiceAccess servicesAccess serviceAccessToFind = true ↔
      ∃ x ∈ servicesAccess, x.Service = serviceAccessToFind.Service ∧
        x.Plan = serviceAccessToFind.Plan ∧ x.OrgId = serviceAccessToFind.OrgId := by
  induction servicesAccess with
  | nil => simp [containsServiceAccess]
  | cons head rest ih =>
    rw [containsServiceAccess]
    by_cases hhead : head.OrgId = serviceAccessToFind.OrgId ∧
        head.Plan = serviceAccessToFind.Plan ∧ head.Service = serviceAccessToFind.Service
    · rw [if_pos hhead]
      simp only [true_iff]
      exact ⟨head, by simp, hhead.2.2, hhead.2.1, hhead.1⟩
    · rw [if_neg hhead, ih]
      constructor
      · rintro ⟨x, hx, hfields⟩
        exact ⟨x, by simp [hx], hfields⟩
      · rintro ⟨x, hx, hs, hp, ho⟩
        rcases List.mem_cons.mp hx with rfl | hx
        · exact absurd ⟨ho, hp, hs⟩ hhead
        · exact ⟨x, hx, hs, hp, ho⟩

theorem containsServiceAccess_iff_mem (servicesAccess : List ServiceAccess)
    (serviceAccessToFind : ServiceAccess) :
    containsServiceAccess servicesAccess serviceAccessToFind = true ↔
      serviceAccessToFind ∈ servicesAccess := by
  rw [containsServiceAccess_iff_fields]
  constructor
  · rintro ⟨x, hx, hs, hp, ho⟩
    have hxeq : x = serviceAccessToFind := by
      cases x
      cases serviceAccessToFind
      simp_all
    rw [← hxeq]
    exact hx
  · intro hmem
    exact ⟨serviceAccessToFind, hmem, rfl, rfl, rfl⟩

theorem diffServicesAccess_eq_filter (servicesAccessSrc servicesAccessDest : List ServiceAccess) :
    diffServicesAccess servicesAccessSrc servicesAccessDest =
      (servicesAccessSrc.filter (fun t => !containsServiceAccess servicesAccessDest t),
       servicesAccessDest.filter (fun t => !containsServiceAccess servicesAccessSrc t)) := by
  unfold diffServicesAccess
  simp only
  rw [foldl_append_if_filter (fun t => !containsServiceAccess servicesAccessDest t),
    foldl_append_if_filter (fun t => !containsServiceAccess servicesAccessSrc t)]
  simp

/-- C7: for all tuple lists `observed` and `desired`, `diffServicesAccess`
returns `(toDelete, toCreate)` where a tuple is in `toDelete` iff it is in
`observed` and no element of `desired` agrees with it on service, plan and
organization, and a tuple is in `toCreate` iff it is in `desired` and no
element of `observed` agrees with it on the three fields; `toDelete` is the
order-preserving sublist of `observed` made of the tuples not in `desired`, and
`toCreate` that of `desired` made of the tuples not in `observed`. -/
theorem diffServicesAccess_spec (observed desired : List ServiceAccess) :
    (∀ t, t ∈ (diffServicesAccess observed desired).1 ↔
      t ∈ observed ∧ ¬ ∃ x ∈ desired,
        x.Service = t.Service ∧ x.Plan = t.Plan ∧ x.OrgId = t.OrgId) ∧
    (∀ t, t ∈ (diffServicesAccess observed desired).2 ↔
      t ∈ desired ∧ ¬ ∃ x ∈ observed,
        x.Service = t.Service ∧ x.Plan = t.Plan ∧ x.OrgId = t.OrgId) ∧
    (diffServicesAccess observed desired).1.Sublist observed ∧
    (diffServicesAccess observed desired).2.Sublist desired ∧
    (diffServicesAccess observed desired).1 = observed.filter (fun t => decide (t ∉ desired)) ∧
    (diffServicesAccess observed desired).2 = desired.filter (fun t => decide (t ∉ observed)) := by
  rw [diffServicesAccess_eq_filter]
  refine ⟨?_, ?_, List.filter_sublist _, List.filter_sublist _, ?_, ?_⟩
  · intro t
    simp only [List.mem_filter, Bool.not_eq_true_eq_eq_false, ← Bool.not_eq_true,
      containsServiceAccess_iff_fields]
  · intro t
    simp only [List.mem_filter, Bool.not_eq_true_eq_eq_false, ← Bool.not_eq_true,
      containsServiceAccess_iff_fields]
  · apply List.filter_congr
    intro t _
    simp [← containsServiceAccess_iff_mem]
  · apply List.filter_congr
    intro t _
    simp [← containsServiceAccess_iff_mem]

/-- C8: for every tuple list `X`, repeated tuples included, the diff of `X`
with itself is empty on both sides; the diff of the empty list with `X` creates
all of `X` and deletes nothing; the diff of `X` with the empty list deletes all
of `X` and creates nothing. -/
theorem diffServicesAccess_self_and_empty (X : List ServiceAccess) :
    diffServicesAccess X X = ([], []) ∧
    diffServicesAccess [] X = ([], X) ∧
    diffServicesAccess X [] = (X, []) := by
  have hself : X.filter (fun t => !containsServiceAccess X t) = [] := by
    rw [List.filter_eq_nil_iff]
    intro t ht
    simp [(containsServiceAccess_iff_mem X t).mpr ht]
  have hempty : X.filter (fun t => !containsServiceAccess [] t) = X := by
    rw [List.filter_eq_self]
    intro t _
    simp [containsServiceAccess]
  refine ⟨?_, ?_, ?_⟩
  · rw [diffServicesAccess_eq_filter, hself]
  · rw [diffServicesAccess_eq_filter, hempty]
    simp
  · rw [diffServicesAccess_eq_filter, hempty]
    simp

/-! ## Normalisation of the observed state -/

theorem retrieveServicesLoop_cons_error (client : Client) (service : ServiceOffering)
    (rest : List ServiceOffering) (servicesAccess : List ServiceAccess) (err : Error)
    (hscan : retrievePlansLoop client service service.Plans
      { servicesAccessInAllOrgsTemp := []
        servicesAccessOrgAndPlanTemp := []
        haveAllPlanInAllOrg := true } = .error err) :
    retrieveServicesLoop client (service :: rest) servicesAccess =
      (servicesAccess, some err) := by
  rw [retrieveServicesLoop, hscan]

theorem retrieveServicesLoop_cons_ok (client : Client) (service : ServiceOffering)
    (rest : List ServiceOffering) (servicesAccess : List ServiceAccess) (scan : PlanScan)
    (hscan : retrievePlansLoop client service service.Plans
      { servicesAccessInAllOrgsTemp := []
        servicesAccessOrgAndPlanTemp := []
        haveAllPlanInAllOrg := true } = .ok scan) :
    retrieveServicesLoop client (service :: rest) servicesAccess =
      retrieveServicesLoop client rest
        (servicesAccess ++
          if scan.haveAllPlanInAllOrg then
            [{ Service := service.Label, Plan := "", OrgId := "" }]
          else
            scan.servicesAccessInAllOrgsTemp ++
              (splitServiceAccess scan.servicesAccessOrgAndPlanTemp
                (service.Plans.length : Int)).1 ++
              (splitServiceAccess scan.servicesAccessOrgAndPlanTemp
                (service.Plans.length : Int)).2) := by
  rw [retrieveServicesLoop, hscan]
  cases hflag : scan.haveAllPlanInAllOrg with
  | true => simp [hflag]
  | false => simp [hflag]

theorem retrieveServicesLoop_acc (client : Client) (services : List ServiceOffering)
    (servicesAccess : List ServiceAccess) :
    retrieveServicesLoop client services servicesAccess =
      (servicesAccess ++ (retrieveServicesLoop client services []).1,
       (retrieveServicesLoop client services []).2) := by
  induction services generalizing servicesAccess with
  | nil => simp [retrieveServicesLoop]
  | cons service rest ih =>
    cases hscan : retrievePlansLoop client service service.Plans
        { servicesAccessInAllOrgsTemp := []
          servicesAccessOrgAndPlanTemp := []
          haveAllPlanInAllOrg := true } with
    | error err =>
      rw [retrieveServicesLoop_cons_error client service rest _ err hscan,
        retrieveServicesLoop_cons_error client service rest _ err hscan]
      simp
    | ok scan =>
      rw [retrieveServicesLoop_cons_ok client service rest _ scan hscan,
        retrieveServicesLoop_cons_ok client service rest _ scan hscan,
        ih (servicesAccess ++ _), ih ([] ++ _)]
      simp

theorem retrieveServicesLoop_append (client : Client) (pre services : List ServiceOffering)
    (servicesAccess : List ServiceAccess)
    (hpre : (retrieveServicesLoop client pre []).2 = none) :
    retrieveServicesLoop client (pre ++ services) servicesAccess =
      retrieveServicesLoop client services
        (servicesAccess ++ (retrieveServicesLoop client pre []).1) := by
  induction pre generalizing servicesAccess with
  | nil => simp [retrieveServicesLoop]
  | cons service rest ih =>
    cases hscan : retrievePlansLoop client service service.Plans
        { servicesAccessInAllOrgsTemp := []
          servicesAccessOrgAndPlanTemp := []
          haveAllPlanInAllOrg := true } with
    | error err =>
      rw [retrieveServicesLoop_cons_error client service rest _ err hscan] at hpre
      simp at hpre
    | ok scan =>
      rw [retrieveServicesLoop_cons_ok client service rest _ scan hscan,
        retrieveServicesLoop_acc] at hpre
      simp only at hpre
      rw [List.cons_append,
        retrieveServicesLoop_cons_ok client service (rest ++ services) _ scan hscan,
        ih _ hpre, retrieveServicesLoop_cons_ok client service rest _ scan hscan,
        retrieveServicesLoop_acc client rest ([] ++ _)]
      simp

/-- The output on a catalog `pre ++ service :: post` when the services of `pre`
are normalised without error and the scan of `service` contributes the records
`records`. -/
theorem retrieveServicesAccessFromBroker_split (client : Client)
    (serviceBroker : ServiceBroker) (pre post : List ServiceOffering)
    (service : ServiceOffering) (records : List ServiceAccess)
    (hcat : serviceBroker.Services = pre ++ service :: post)
    (hpre : (retrieveServicesAccessFromBroker client
      { serviceBroker with Services := pre }).2 = none)
    (hstep : ∀ servicesAccess, retrieveServicesLoop client (service :: post) servicesAccess =
      retrieveServicesLoop client post (servicesAccess ++ records)) :
    retrieveServicesAccessFromBroker client serviceBroker =
      ((retrieveServicesAccessFromBroker client { serviceBroker with Services := pre }).1 ++
          records ++
          (retrieveServicesAccessFromBroker client { serviceBroker with Services := post }).1,
        (retrieveServicesAccessFromBroker client { serviceBroker with Services := post }).2) := by
  unfold retrieveServicesAccessFromBroker at hpre ⊢
  simp only at hpre ⊢
  rw [hcat, retrieveServicesLoop_append client pre _ [] hpre, hstep, retrieveServicesLoop_acc]
  simp

/-- A public plan ends the scan of the plans with the flag set, provided the
lookups made for the plans before it succeed. -/
theorem retrievePlansLoop_public (client : Client) (service : ServiceOffering)
    (before after : List ServicePlanFields) (plan : ServicePlanFields) (scan : PlanScan)
    (hpub : plan.Public = true)
    (hlook : ∀ q ∈ before, (isPlanInAllOrgs client q.GUID).2 = none ∧
      ((isPlanInAllOrgs client q.GUID).1 = false →
        (getPlanVisibilitiesForPlan client q.GUID).2 = none)) :
    ∃ final, retrievePlansLoop client service (before ++ plan :: after) scan = .ok final ∧
      final.haveAllPlanInAllOrg = true := by
  induction before generalizing scan with
  | nil =>
    rw [List.nil_append, retrievePlansLoop]
    simp [hpub]
  | cons q rest ih =>
    have hq := hlook q (by simp)
    have hrest : ∀ x ∈ rest, (isPlanInAllOrgs client x.GUID).2 = none ∧
        ((isPlanInAllOrgs client x.GUID).1 = false →
          (getPlanVisibilitiesForPlan client x.GUID).2 = none) :=
      fun x hx => hlook x (by simp [hx])
    rw [List.cons_append, retrievePlansLoop]
    by_cases hqpub : q.Public = true
    · simp [hqpub]
    · simp only [hqpub]
      cases hall : isPlanInAllOrgs client q.GUID with
      | mk isAll err =>
        rw [hall] at hq
        obtain ⟨herr, hvis⟩ := hq
        simp only at herr hvis
        subst herr
        cases isAll with
        | true => exact ih _ hrest
        | false =>
          cases hv : getPlanVisibilitiesForPlan client q.GUID with
          | mk visibilities verr =>
            have hverr := hvis rfl
            rw [hv] at hverr
            simp only at hverr
            subst hverr
            exact ih _ hrest

/-- C9: in `retrieveServicesAccessFromBroker`, for a service of the catalog
that has a plan with `Public = true` at any position of its plan list, and
provided the lookups made before it succeed (the preceding services are
normalised without error, and for each plan before the public one
`isPlanInAllOrgs` succeeds and, when it answers no, so does
`getPlanVisibilitiesForPlan`), the output is the records of the preceding
services, then the single record `(service.Label, ∅, ∅)`, then the records of
the following services: one record for that service and no record with a plan
or an organization, for every client, hence whatever grants the store holds. -/
theorem retrieveServicesAccessFromBroker_public_plan (client : Client)
    (serviceBroker : ServiceBroker) (pre post : List ServiceOffering)
    (service : ServiceOffering) (before after : List ServicePlanFields)
    (plan : ServicePlanFields)
    (hcat : serviceBroker.Services = pre ++ service :: post)
    (hplans : service.Plans = before ++ plan :: after)
    (hpub : plan.Public = true)
    (hlook : ∀ q ∈ before, (isPlanInAllOrgs client q.GUID).2 = none ∧
      ((isPlanInAllOrgs client q.GUID).1 = false →
        (getPlanVisibilitiesForPlan client q.GUID).2 = none))
    (hpre : (retrieveServicesAccessFromBroker client
      { serviceBroker with Services := pre }).2 = none) :
    retrieveServicesAccessFromBroker client serviceBroker =
      ((retrieveServicesAccessFromBroker client { serviceBroker with Services := pre }).1 ++
          [{ Service := service.Label, Plan := "", OrgId := "" }] ++
          (retrieveServicesAccessFromBroker client { serviceBroker with Services := post }).1,
        (retrieveServicesAccessFromBroker client { serviceBroker with Services := post }).2) := by
  apply retrieveServicesAccessFromBroker_split client serviceBroker pre post service _ hcat hpre
  intro servicesAccess
  obtain ⟨final, hscan, hflag⟩ := retrievePlansLoop_public client service before after plan
    { servicesAccessInAllOrgsTemp := []
      servicesAccessOrgAndPlanTemp := []
      haveAllPlanInAllOrg := true } hpub hlook
  rw [← hplans] at hscan
  rw [retrieveServicesLoop_cons_ok client service post servicesAccess final hscan]
  simp [hflag]

/-- Witness of C9: service `S` with the non-public plan `p1`, granted to `o1`
alone, before the public plan `p2`; the output is the single record
`(S, ∅, ∅)`. -/
theorem retrieveServicesAccessFromBroker_public_plan_witness :
    retrieveServicesAccessFromBroker
        (storeClient [⟨"o1"⟩, ⟨"o2"⟩] [⟨"v1", "pg1", "o1"⟩]) publicPlanBroker =
      ([⟨"S", "", ""⟩], none) :=
  (retrieveServicesAccessFromBroker_public_plan
      (storeClient [⟨"o1"⟩, ⟨"o2"⟩] [⟨"v1", "pg1", "o1"⟩]) publicPlanBroker [] []
      ⟨"g", "S", [⟨"pg1", "p1", false, "g"⟩, ⟨"pg2", "p2", true, "g"⟩]⟩
      [⟨"pg1", "p1", false, "g"⟩] [] ⟨"pg2", "p2", true, "g"⟩
      rfl rfl rfl (by decide) (by decide)).trans (by decide)

theorem isPlanInOrg_granted (client : Client) (planGuid orgGuid : String)
    (visibility : ServicePlanVisibilityFields) (others : List ServicePlanVisibilityFields)
    (hsearch : client.Search
      { service_plan_guid := some planGuid, organization_guid := some orgGuid } =
        .ok (visibility :: others))
    (hguid : visibility.GUID ≠ "") :
    isPlanInOrg client planGuid orgGuid = (true, none) := by
  unfold isPlanInOrg getPlanVisibilityForPlanAndOrg
  rw [hsearch]
  simp [hguid]

theorem isPlanInAllOrgsLoop_granted (client : Client) (planGuid : String)
    (orgs : List Organization)
    (hall : ∀ org ∈ orgs, isPlanInOrg client planGuid org.GUID = (true, none)) :
    isPlanInAllOrgsLoop client planGuid orgs = (true, none) := by
  induction orgs with
  | nil => rfl
  | cons org rest ih =>
    rw [isPlanInAllOrgsLoop, hall org (by simp)]
    simp only [Bool.not_true, Bool.false_eq_true, if_false]
    exact ih (fun x hx => hall x (by simp [hx]))

/-- The scan of plans that are all non-public and all granted to every
organization records one `(service, plan, ∅)` per plan and leaves the flag
untouched. -/
theorem retrievePlansLoop_all_orgs (client : Client) (service : ServiceOffering)
    (plans : List ServicePlanFields) (scan : PlanScan)
    (hplans : ∀ plan ∈ plans, plan.Public = false ∧
      isPlanInAllOrgs client plan.GUID = (true, none)) :
    retrievePlansLoop client service plans scan =
      .ok { scan with
            servicesAccessInAllOrgsTemp := scan.servicesAccessInAllOrgsTemp ++
              plans.map (fun plan => ⟨service.Label, plan.Name, ""⟩) } := by
  induction plans generalizing scan with
  | nil => simp [retrievePlansLoop]
  | cons plan rest ih =>
    obtain ⟨hpub, hall⟩ := hplans plan (by simp)
    rw [retrievePlansLoop, hall]
    simp only [hpub, Bool.false_eq_true, if_false, if_true]
    rw [ih _ (fun x hx => hplans x (by simp [hx]))]
    simp

/-- C10: in `retrieveServicesAccessFromBroker`, for a service with no public
plan in which every plan has a visibility grant for every organization of the
directory (the search on plan and organization returns a first grant with a
non-empty id), the output for that service is exactly the single record
`(service.Label, ∅, ∅)`, between the records of the preceding services, which
are normalised without error, and those of the following ones; no
`(service, plan, ∅)` record is emitted for it. -/
theorem retrieveServicesAccessFromBroker_all_plans_all_orgs (client : Client)
    (serviceBroker : ServiceBroker) (pre post : List ServiceOffering)
    (service : ServiceOffering) (orgs : List Organization)
    (hcat : serviceBroker.Services = pre ++ service :: post)
    (hnopub : ∀ plan ∈ service.Plans, plan.Public = false)
    (horgs : client.ListOrgs = .ok orgs)
    (hgrants : ∀ plan ∈ service.Plans, ∀ org ∈ orgs, ∃ visibility others,
      client.Search { service_plan_guid := some plan.GUID
                      organization_guid := some org.GUID } = .ok (visibility :: others) ∧
      visibility.GUID ≠ "")
    (hpre : (retrieveServicesAccessFromBroker client
      { serviceBroker with Services := pre }).2 = none) :
    retrieveServicesAccessFromBroker client serviceBroker =
      ((retrieveServicesAccessFromBroker client { serviceBroker with Services := pre }).1 ++
          [{ Service := service.Label, Plan := "", OrgId := "" }] ++
          (retrieveServicesAccessFromBroker client { serviceBroker with Services := post }).1,
        (retrieveServicesAccessFromBroker client { serviceBroker with Services := post }).2) := by
  apply retrieveServicesAccessFromBroker_split client serviceBroker pre post service _ hcat hpre
  intro servicesAccess
  have hplans : ∀ plan ∈ service.Plans, plan.Public = false ∧
      isPlanInAllOrgs client plan.GUID = (true, none) := by
    intro plan hplan
    refine ⟨hnopub plan hplan, ?_⟩
    unfold isPlanInAllOrgs
    rw [horgs]
    apply isPlanInAllOrgsLoop_granted
    intro org horg
    obtain ⟨visibility, others, hsearch, hguid⟩ := hgrants plan hplan org horg
    exact isPlanInOrg_granted client plan.GUID org.GUID visibility others hsearch hguid
  rw [retrieveServicesLoop_cons_ok client service post servicesAccess _
    (retrievePlansLoop_all_orgs client service service.Plans _ hplans)]
  simp

/-- Witness of C10: service `S` with the non-public plans `p1` and `p2`, each
granted to both organizations `o1` and `o2`; the output is the single record
`(S, ∅, ∅)`. -/
theorem retrieveServicesAccessFromBroker_all_plans_all_orgs_witness :
    retrieveServicesAccessFromBroker
        (storeClient [⟨"o1"⟩, ⟨"o2"⟩]
          [⟨"v1", "pg1", "o1"⟩, ⟨"v2", "pg1", "o2"⟩, ⟨"v3", "pg2", "o1"⟩,
            ⟨"v4", "pg2", "o2"⟩]) twoPlansBroker =
      ([⟨"S", "", ""⟩], none) :=
  (retrieveServicesAccessFromBroker_all_plans_all_orgs
      (storeClient [⟨"o1"⟩, ⟨"o2"⟩]
        [⟨"v1", "pg1", "o1"⟩, ⟨"v2", "pg1", "o2"⟩, ⟨"v3", "pg2", "o1"⟩,
          ⟨"v4", "pg2", "o2"⟩]) twoPlansBroker [] []
      ⟨"g", "S", [⟨"pg1", "p1", false, "g"⟩, ⟨"pg2", "p2", false, "g"⟩]⟩
      [⟨"o1"⟩, ⟨"o2"⟩] rfl (by decide) rfl
      (by
        intro plan hplan org horg
        simp only [List.mem_cons, List.mem_singleton, List.not_mem_nil, or_false] at hplan horg
        rcases hplan with rfl | rfl <;> rcases horg with rfl | rfl
        · exact ⟨⟨"v1", "pg1", "o1"⟩, [], rfl, by decide⟩
        · exact ⟨⟨"v2", "pg1", "o2"⟩, [], rfl, by decide⟩
        · exact ⟨⟨"v3", "pg2", "o1"⟩, [], rfl, by decide⟩
        · exact ⟨⟨"v4", "pg2", "o2"⟩, [], rfl, by decide⟩)
      (by decide)).trans (by decide)

/-! ## Compaction -/

/-- C11: service `S` has the plans `p1` and `p2`, both granted to `o1` alone,
so that `o1` appears with every plan among the explicit records, one record per
plan and `numberPlan = 2`.  `splitServiceAccess` does not return exactly one
`(S, ∅, o1)` record: the key of its bookkeeping contains the plan, so the
second record of `o1` is collapsed again and the output holds the record twice,
also in the output of `retrieveServicesAccessFromBroker`. -/
theorem splitServiceAccess_collapses_once_per_plan :
    splitServiceAccess [⟨"S", "p1", "o1"⟩, ⟨"S", "p2", "o1"⟩] 2 =
      ([⟨"S", "", "o1"⟩, ⟨"S", "", "o1"⟩], []) ∧
    retrieveServicesAccessFromBroker
        (storeClient [⟨"o1"⟩, ⟨"o2"⟩] [⟨"v1", "pg1", "o1"⟩, ⟨"v2", "pg2", "o1"⟩])
        twoPlansBroker =
      ([⟨"S", "", "o1"⟩, ⟨"S", "", "o1"⟩], none) ∧
    (splitServiceAccess [⟨"S", "p1", "o1"⟩, ⟨"S", "p2", "o1"⟩] 2).1.count ⟨"S", "", "o1"⟩ = 2 := by
  refine ⟨by decide, by decide, by decide⟩

/-- C19: the explicit records of service `S` (plans `bc` and `c`) are
`(S, bc, a)`, `(S, c, a)` and `(S, c, ab)`, with `numberPlan = 2`.  The record
`(S, c, ab)` is lost by `splitServiceAccess`: its key `ab ++ c` is the key
`a ++ bc` already set for `(S, bc, a)`, so it is skipped; it is not in `full`
and `onlyWithOrg` holds no `(S, ∅, ab)`.  The same loss shows in the output of
`retrieveServicesAccessFromBroker`. -/
theorem splitServiceAccess_loses_record_on_key_clash :
    splitServiceAccess [⟨"S", "bc", "a"⟩, ⟨"S", "c", "a"⟩, ⟨"S", "c", "ab"⟩] 2 =
      ([⟨"S", "", "a"⟩, ⟨"S", "", "a"⟩], []) ∧
    (⟨"S", "c", "ab"⟩ : ServiceAccess) ∉
      (splitServiceAccess [⟨"S", "bc", "a"⟩, ⟨"S", "c", "a"⟩, ⟨"S", "c", "ab"⟩] 2).2 ∧
    (⟨"S", "", "ab"⟩ : ServiceAccess) ∉
      (splitServiceAccess [⟨"S", "bc", "a"⟩, ⟨"S", "c", "a"⟩, ⟨"S", "c", "ab"⟩] 2).1 ∧
    retrieveServicesAccessFromBroker
        (storeClient [⟨"a"⟩, ⟨"ab"⟩, ⟨"z"⟩]
          [⟨"v1", "g1", "a"⟩, ⟨"v2", "g2", "a"⟩, ⟨"v3", "g2", "ab"⟩])
        collidingBroker =
      ([⟨"S", "", "a"⟩, ⟨"S", "", "a"⟩], none) := by
  refine ⟨by decide, by decide, by decide, by decide⟩

/-! ## Reconciliation passes on the platform of the specification -/

/-- C16: two desired lists accepted by expansion on which a first pass
succeeds and the second pass does not compute an empty diff.  The list
`[(g, p1, ∅)]` names service `S` by its id `g`: the first pass grants `p1` to
`o1` and `o2`; in the second pass the observed tuples carry the label `S` and
the desired ones the id `g`, so `toDelete` is both observed tuples, `toCreate`
both desired ones, and the pass ends by deleting the two grants.  The list
`[(S, p1, ∅), (S, p2, ∅)]` names everything by label and name: the first pass
grants both plans to both organizations; in the second pass the observed state
is the record `(S, ∅, ∅)`, which expands to no tuple, so `toCreate` is again
the four desired tuples. -/
theorem Update_second_pass_not_empty :
    ((getFullServicesAccessDef (specPlatform.reads emptyStoreState) emptyStoreState.catalog
        [⟨"g", "p1", ""⟩]).2 = none ∧
      Update specPlatform emptyStoreState emptyStoreState.catalog "broker" [⟨"g", "p1", ""⟩] =
        (p1GrantedState, none) ∧
      UpdateDiff (specPlatform.reads p1GrantedState) p1GrantedState.catalog [⟨"g", "p1", ""⟩] =
        (([⟨"S", "p1", "o1"⟩, ⟨"S", "p1", "o2"⟩], [⟨"g", "p1", "o1"⟩, ⟨"g", "p1", "o2"⟩]),
          none) ∧
      Update specPlatform p1GrantedState p1GrantedState.catalog "broker" [⟨"g", "p1", ""⟩] =
        (emptyStoreState, none)) ∧
    ((getFullServicesAccessDef (specPlatform.reads emptyStoreState) emptyStoreState.catalog
        [⟨"S", "p1", ""⟩, ⟨"S", "p2", ""⟩]).2 = none ∧
      Update specPlatform emptyStoreState emptyStoreState.catalog "broker"
          [⟨"S", "p1", ""⟩, ⟨"S", "p2", ""⟩] =
        (allGrantedState, none) ∧
      retrieveServicesAccessFromBroker (specPlatform.reads allGrantedState)
          allGrantedState.catalog =
        ([⟨"S", "", ""⟩], none) ∧
      UpdateDiff (specPlatform.reads allGrantedState) allGrantedState.catalog
          [⟨"S", "p1", ""⟩, ⟨"S", "p2", ""⟩] =
        (([], [⟨"S", "p1", "o1"⟩, ⟨"S", "p1", "o2"⟩, ⟨"S", "p2", "o1"⟩, ⟨"S", "p2", "o2"⟩]),
          none)) := by
  refine ⟨⟨by decide, by decide, by decide, by decide⟩,
    ⟨by decide, by decide, by decide, by decide⟩⟩

/-- C17: in the end-to-end scenario (service `db` with the non-public plans
`small` and `large`, organizations `org-a` and `org-b`, no grant, desired
`[(db, small, org-a)]`) the observed records are `[]` and `toDelete` is empty,
but `toCreate` is not the single tuple `(db, small, org-a)`: the desired
declaration expands to one tuple per organization, so `toCreate` also holds
`(db, small, org-b)` and the pass grants `small` to `org-b` as well. -/
theorem Update_first_pass_grants_every_org :
    retrieveServicesAccessFromBroker (specPlatform.reads dbState) dbBroker = ([], none) ∧
    UpdateDiff (specPlatform.reads dbState) dbBroker [⟨"db", "small", "org-a"⟩] =
      (([], [⟨"db", "small", "org-a"⟩, ⟨"db", "small", "org-b"⟩]), none) ∧
    Update specPlatform dbState dbBroker "broker" [⟨"db", "small", "org-a"⟩] =
      ({ dbState with
          store := [⟨"pg1/org-a", "pg1", "org-a"⟩, ⟨"pg1/org-b", "pg1", "org-b"⟩] }, none) := by
  refine ⟨by decide, by decide, by decide⟩

/-- The error of the expansion of the observed records never reaches the
result of `UpdateDiff`: once the desired expansion and the normalisation
succeed, the diff is taken on whatever list that expansion returned. -/
theorem UpdateDiff_of_ok (client : Client) (brokerCf : ServiceBroker)
    (servicesAccess dest src : List ServiceAccess)
    (hdest : getFullServicesAccessDef client brokerCf servicesAccess = (dest, none))
    (hsrc : retrieveServicesAccessFromBroker client brokerCf = (src, none)) :
    UpdateDiff client brokerCf servicesAccess =
      (diffServicesAccess (getFullServicesAccessDef client brokerCf src).1 dest, none) := by
  unfold UpdateDiff
  rw [hdest]
  simp only
  rw [hsrc]

/-- C18: on `staleGrantState` with desired `[(S, p1, ∅)]` the observed records
are `[(S, p2, o1), (T, ∅, ∅)]` and their expansion fails with the
`serviceNotFound` error for `T`.  The pass does not return that error: the
error is dropped, the observed tuples are taken to be empty, both desired
tuples are created, the grant of `p2` to `o1` is left in place, and the pass
reports success.  For every client, catalog and desired list, whatever error
the expansion of the observed records returns, `UpdateDiff` reports none. -/
theorem Update_drops_observed_expansion_error :
    retrieveServicesAccessFromBroker (specPlatform.reads staleGrantState)
        unresolvedLabelBroker =
      ([⟨"S", "p2", "o1"⟩, ⟨"T", "", ""⟩], none) ∧
    getFullServicesAccessDef (specPlatform.reads staleGrantState) unresolvedLabelBroker
        [⟨"S", "p2", "o1"⟩, ⟨"T", "", ""⟩] =
      ([], some (.serviceNotFound "T" "broker")) ∧
    UpdateDiff (specPlatform.reads staleGrantState) unresolvedLabelBroker [⟨"S", "p1", ""⟩] =
      (([], [⟨"S", "p1", "o1"⟩, ⟨"S", "p1", "o2"⟩]), none) ∧
    Update specPlatform staleGrantState unresolvedLabelBroker "broker" [⟨"S", "p1", ""⟩] =
      ({ staleGrantState with
          store := [⟨"v1", "pg2", "o1"⟩, ⟨"pg1/o1", "pg1", "o1"⟩, ⟨"pg1/o2", "pg1", "o2"⟩] },
        none) ∧
    (∀ (client : Client) (brokerCf : ServiceBroker)
        (servicesAccess dest src : List ServiceAccess),
      getFullServicesAccessDef client brokerCf servicesAccess = (dest, none) →
      retrieveServicesAccessFromBroker client brokerCf = (src, none) →
      (UpdateDiff client brokerCf servicesAccess).2 = none) := by
  refine ⟨by decide, by decide, by decide, by decide, ?_⟩
  intro client brokerCf servicesAccess dest src hdest hsrc
  rw [UpdateDiff_of_ok client brokerCf servicesAccess dest src hdest hsrc]

/-! ## Applying one tuple -/

/-- The create loop of `Update` over `pre ++ rest`, when the tuples of `pre`
are all applied without error, goes on with `rest` from the state they left. -/
theorem UpdateCreateLoop_append {σ : Type} (platform : Platform σ) (brokerCf : ServiceBroker)
    (brokerName : String) (pre rest : List ServiceAccess) (state0 state : σ)
    (hpre : UpdateCreateLoop platform brokerCf brokerName pre state0 = (state, none)) :
    UpdateCreateLoop platform brokerCf brokerName (pre ++ rest) state0 =
      UpdateCreateLoop platform brokerCf brokerName rest state := by
  induction pre generalizing state0 with
  | nil =>
    simp only [UpdateCreateLoop, Prod.mk.injEq, and_true] at hpre
    rw [List.nil_append, hpre]
  | cons head tail ih =>
    rw [UpdateCreateLoop] at hpre
    rw [List.cons_append, UpdateCreateLoop]
    by_cases hguid : (getService brokerCf head.Service).GUID = ""
    · simp [hguid] at hpre
    · simp only [hguid, if_false] at hpre ⊢
      cases hone : updateServiceAccessWithPlanAndOrg platform state0
          (getService brokerCf head.Service) head with
      | mk stateNext err =>
        rw [hone] at hpre
        cases err with
        | some e => simp at hpre
        | none =>
          simp only at hpre ⊢
          exact ih stateNext hpre

/-- C15: applying one create tuple with `updateServiceAccessWithPlanAndOrg`
when the plan resolves in the service.  If the creation succeeds the result is
success; if the store reports the conflict (its message contains the literal
`alreadyTaken`) the result is success and the engine makes no further call, so
the state is the one the store left, unchanged for a store that rejects the
pair without change; if the store returns another error, that error is
returned, and the create loop of `Update` stops on it wherever the tuple
stands in `toCreate`: for a list `pre ++ t :: rest` whose tuples `pre` are
applied without error, the loop returns that error with the state the store
left at the failing creation, so no tuple of `rest` is applied. -/
theorem updateServiceAccessWithPlanAndOrg_outcomes {σ : Type} (platform : Platform σ)
    (state : σ) (service : ServiceOffering) (serviceAccess : ServiceAccess)
    (hplan : (getServicePlan service serviceAccess.Plan).GUID ≠ "") :
    (∀ state1, platform.CreateVisibility state (getServicePlan service serviceAccess.Plan).GUID
        serviceAccess.OrgId = (state1, none) →
      updateServiceAccessWithPlanAndOrg platform state service serviceAccess = (state1, none)) ∧
    (∀ state1 msg,
      platform.CreateVisibility state (getServicePlan service serviceAccess.Plan).GUID
        serviceAccess.OrgId = (state1, some msg) →
      stringsContains msg alreadyTaken = true →
      updateServiceAccessWithPlanAndOrg platform state service serviceAccess = (state1, none)) ∧
    (∀ state1 msg,
      platform.CreateVisibility state (getServicePlan service serviceAccess.Plan).GUID
        serviceAccess.OrgId = (state1, some msg) →
      stringsContains msg alreadyTaken = false →
      updateServiceAccessWithPlanAndOrg platform state service serviceAccess =
          (state1, some (.platform msg)) ∧
        ∀ brokerCf brokerName pre rest state0,
          UpdateCreateLoop platform brokerCf brokerName pre state0 = (state, none) →
          getService brokerCf serviceAccess.Service = service →
          service.GUID ≠ "" →
          UpdateCreateLoop platform brokerCf brokerName (pre ++ serviceAccess :: rest) state0 =
            (state1, some (.platform msg))) := by
  refine ⟨?_, ?_, ?_⟩
  · intro state1 hcreate
    unfold updateServiceAccessWithPlanAndOrg
    simp [hplan, hcreate]
  · intro state1 msg hcreate hmsg
    unfold updateServiceAccessWithPlanAndOrg
    simp [hplan, hcreate, hmsg]
  · intro state1 msg hcreate hmsg
    have hone : updateServiceAccessWithPlanAndOrg platform state service serviceAccess =
        (state1, some (.platform msg)) := by
      unfold updateServiceAccessWithPlanAndOrg
      simp [hplan, hcreate, hmsg]
    refine ⟨hone, ?_⟩
    intro brokerCf brokerName pre rest state0 hpre hservice hguid
    rw [UpdateCreateLoop_append platform brokerCf brokerName pre (serviceAccess :: rest)
      state0 state hpre, UpdateCreateLoop]
    simp only [hservice, hguid, if_false]
    rw [hone]

/-- Witness of C15 on the platform of the specification: `p1` is granted to
`o1` from the empty store; granted a second time, the conflict is swallowed and
the state is unchanged; on the platform that refuses every creation the error
comes back at the head of the list; on the platform that refuses `o2`, the
list `[(S, p1, o1), (S, p1, o2), (S, p2, o1)]` grants `p1` to `o1`, stops on
the second tuple and leaves the third unapplied. -/
theorem updateServiceAccessWithPlanAndOrg_outcomes_witness :
    updateServiceAccessWithPlanAndOrg specPlatform emptyStoreState
        (getService twoPlansBroker "S") ⟨"S", "p1", "o1"⟩ =
      ({ emptyStoreState with store := [⟨"pg1/o1", "pg1", "o1"⟩] }, none) ∧
    updateServiceAccessWithPlanAndOrg specPlatform p1GrantedState
        (getService twoPlansBroker "S") ⟨"S", "p1", "o1"⟩ =
      (p1GrantedState, none) ∧
    UpdateCreateLoop refusingPlatform twoPlansBroker "broker"
        [⟨"S", "p1", "o1"⟩, ⟨"S", "p1", "o2"⟩] emptyStoreState =
      (emptyStoreState, some (.platform "CF-NotAuthorized")) ∧
    UpdateCreateLoop refusingForO2Platform twoPlansBroker "broker"
        [⟨"S", "p1", "o1"⟩, ⟨"S", "p1", "o2"⟩, ⟨"S", "p2", "o1"⟩] emptyStoreState =
      ({ emptyStoreState with store := [⟨"pg1/o1", "pg1", "o1"⟩] },
        some (.platform "CF-NotAuthorized")) :=
  ⟨(updateServiceAccessWithPlanAndOrg_outcomes specPlatform emptyStoreState
      (getService twoPlansBroker "S") ⟨"S", "p1", "o1"⟩ (by decide)).1 _ (by decide),
   (updateServiceAccessWithPlanAndOrg_outcomes specPlatform p1GrantedState
      (getService twoPlansBroker "S") ⟨"S", "p1", "o1"⟩ (by decide)).2.1 p1GrantedState
      ("CF-ServicePlanVisibilityAlreadyExists: " ++ alreadyTaken) (by decide) (by decide),
   ((updateServiceAccessWithPlanAndOrg_outcomes refusingPlatform emptyStoreState
      (getService twoPlansBroker "S") ⟨"S", "p1", "o1"⟩ (by decide)).2.2 _ _ rfl
      (by decide)).2 twoPlansBroker "broker" [] [⟨"S", "p1", "o2"⟩] emptyStoreState rfl rfl
      (by decide),
   ((updateServiceAccessWithPlanAndOrg_outcomes refusingForO2Platform
      { emptyStoreState with store := [⟨"pg1/o1", "pg1", "o1"⟩] }
      (getService twoPlansBroker "S") ⟨"S", "p1", "o2"⟩ (by decide)).2.2 _ _ rfl
      (by decide)).2 twoPlansBroker "broker" [⟨"S", "p1", "o1"⟩] [⟨"S", "p2", "o1"⟩]
      emptyStoreState (by decide) rfl (by decide)⟩

/-! ## The scan of the plans of one service -/

theorem isPlanInOrg_true (client : Client) (planGuid orgGuid : String) (err : Option Error)
    (h : isPlanInOrg client planGuid orgGuid = (true, err)) :
    err = none ∧ ∃ visibility others,
      client.Search { service_plan_guid := some planGuid, organization_guid := some orgGuid } =
        .ok (visibility :: others) ∧ visibility.GUID ≠ "" := by
  unfold isPlanInOrg getPlanVisibilityForPlanAndOrg at h
  cases hsearch : client.Search
      { service_plan_guid := some planGuid, organization_guid := some orgGuid } with
  | error msg =>
    rw [hsearch] at h
    simp at h
  | ok visibilities =>
    rw [hsearch] at h
    cases visibilities with
    | nil =>
      have hzero : (default : ServicePlanVisibilityFields).GUID = "" := rfl
      simp [hzero] at h
    | cons visibility others =>
      simp only at h
      by_cases hguid : visibility.GUID = ""
      · simp [hguid] at h
      · simp [hguid] at h
        exact ⟨h.symm, visibility, others, rfl, hguid⟩

theorem isPlanInAllOrgsLoop_true (client : Client) (planGuid : String)
    (orgs : List Organization) (err : Option Error)
    (h : isPlanInAllOrgsLoop client planGuid orgs = (true, err)) :
    err = none ∧ ∀ org ∈ orgs, isPlanInOrg client planGuid org.GUID = (true, none) := by
  induction orgs with
  | nil =>
    simp [isPlanInAllOrgsLoop] at h
    exact ⟨h.symm, by simp⟩
  | cons org rest ih =>
    rw [isPlanInAllOrgsLoop] at h
    cases hin : isPlanInOrg client planGuid org.GUID with
    | mk isInOrg e =>
      rw [hin] at h
      cases e with
      | some e1 => simp at h
      | none =>
        cases isInOrg with
        | false => simp at h
        | true =>
          simp only [Bool.not_true, Bool.false_eq_true, if_false] at h
          obtain ⟨herr, hrest⟩ := ih h
          refine ⟨herr, ?_⟩
          intro o ho
          rcases List.mem_cons.mp ho with rfl | ho
          · exact hin
          · exact hrest o ho

/-- When `isPlanInAllOrgs` answers yes, the directory was listed and, for each
of its organizations, the search on plan and organization returned a first
grant with a non-empty id. -/
theorem isPlanInAllOrgs_true (client : Client) (planGuid : String) (err : Option Error)
    (h : isPlanInAllOrgs client planGuid = (true, err)) :
    err = none ∧ ∃ orgs, client.ListOrgs = .ok orgs ∧ ∀ org ∈ orgs, ∃ visibility others,
      client.Search { service_plan_guid := some planGuid
                      organization_guid := some org.GUID } = .ok (visibility :: others) ∧
      visibility.GUID ≠ "" := by
  unfold isPlanInAllOrgs at h
  cases horgs : client.ListOrgs with
  | error msg =>
    rw [horgs] at h
    simp at h
  | ok orgs =>
    rw [horgs] at h
    simp only at h
    obtain ⟨herr, hall⟩ := isPlanInAllOrgsLoop_true client planGuid orgs err h
    refine ⟨herr, orgs, rfl, ?_⟩
    intro org horg
    exact (isPlanInOrg_true client planGuid org.GUID none (hall org horg)).2

/-- A scan that ends without error over plans none of which is public: the
records it adds, the flag it leaves, and the lookups that succeeded. -/
theorem retrievePlansLoop_no_public (client : Client) (service : ServiceOffering)
    (plans : List ServicePlanFields) (scan final : PlanScan)
    (hnopub : ∀ plan ∈ plans, plan.Public = false)
    (hloop : retrievePlansLoop client service plans scan = .ok final) :
    final.servicesAccessInAllOrgsTemp = scan.servicesAccessInAllOrgsTemp ++
      (plans.filter (fun plan => (isPlanInAllOrgs client plan.GUID).1)).map
        (fun plan => ⟨service.Label, plan.Name, ""⟩) ∧
    final.servicesAccessOrgAndPlanTemp = scan.servicesAccessOrgAndPlanTemp ++
      (plans.filter (fun plan => !(isPlanInAllOrgs client plan.GUID).1)).flatMap
        (planRecords client service) ∧
    final.haveAllPlanInAllOrg =
      (scan.haveAllPlanInAllOrg && plans.all (fun plan => (isPlanInAllOrgs client plan.GUID).1)) ∧
    (∀ plan ∈ plans, (isPlanInAllOrgs client plan.GUID).2 = none ∧
      ((isPlanInAllOrgs client plan.GUID).1 = false →
        (getPlanVisibilitiesForPlan client plan.GUID).2 = none)) := by
  induction plans generalizing scan with
  | nil =>
    simp [retrievePlansLoop] at hloop
    subst hloop
    simp
  | cons plan rest ih =>
    have hpub : plan.Public = false := hnopub plan (by simp)
    have hrest : ∀ x ∈ rest, x.Public = false := fun x hx => hnopub x (by simp [hx])
    rw [retrievePlansLoop] at hloop
    simp only [hpub, Bool.false_eq_true, if_false] at hloop
    cases hall : isPlanInAllOrgs client plan.GUID with
    | mk isAll err =>
      rw [hall] at hloop
      cases err with
      | some e => simp at hloop
      | none =>
        cases isAll with
        | true =>
          simp only [if_true] at hloop
          obtain ⟨h1, h2, h3, h4⟩ := ih _ hrest hloop
          refine ⟨?_, ?_, ?_, ?_⟩
          · rw [h1]
            simp [hall]
          · rw [h2]
            simp [hall]
          · rw [h3]
            simp [hall]
          · intro x hx
            rcases List.mem_cons.mp hx with rfl | hx
            · simp [hall]
            · exact h4 x hx
        | false =>
          simp only [Bool.false_eq_true, if_false] at hloop
          cases hvis : getPlanVisibilitiesForPlan client plan.GUID with
          | mk visibilities verr =>
            rw [hvis] at hloop
            cases verr with
            | some e => simp at hloop
            | none =>
              simp only at hloop
              obtain ⟨h1, h2, h3, h4⟩ := ih _ hrest hloop
              refine ⟨?_, ?_, ?_, ?_⟩
              · rw [h1]
                simp [hall]
              · rw [h2]
                simp only
                rw [foldl_append_singleton_map
                  (fun visibility : ServicePlanVisibilityFields =>
                    (⟨service.Label, plan.Name, visibility.OrganizationGUID⟩ : ServiceAccess))]
                simp [hall, planRecords, hvis]
              · rw [h3]
                simp [hall]
              · intro x hx
                rcases List.mem_cons.mp hx with rfl | hx
                · simp [hall, hvis]
                · exact h4 x hx

/-- A scan that ends without error over plans one of which is public leaves
the flag set. -/
theorem retrievePlansLoop_flag_of_public (client : Client) (service : ServiceOffering)
    (plans : List ServicePlanFields) (scan final : PlanScan)
    (hloop : retrievePlansLoop client service plans scan = .ok final)
    (hpub : ∃ plan ∈ plans, plan.Public = true) :
    final.haveAllPlanInAllOrg = true := by
  induction plans generalizing scan with
  | nil => simp at hpub
  | cons plan rest ih =>
    rw [retrievePlansLoop] at hloop
    by_cases hplan : plan.Public = true
    · simp [hplan] at hloop
      rw [← hloop]
    · have hrest : ∃ x ∈ rest, x.Public = true := by
        obtain ⟨x, hx, hxpub⟩ := hpub
        rcases List.mem_cons.mp hx with rfl | hx
        · exact absurd hxpub hplan
        · exact ⟨x, hx, hxpub⟩
      simp only [hplan, if_false] at hloop
      cases hall : isPlanInAllOrgs client plan.GUID with
      | mk isAll err =>
        rw [hall] at hloop
        cases err with
        | some e => simp at hloop
        | none =>
          cases isAll with
          | true => exact ih _ hloop hrest
          | false =>
            simp only [Bool.false_eq_true, if_false] at hloop
            cases hvis : getPlanVisibilitiesForPlan client plan.GUID with
            | mk visibilities verr =>
              rw [hvis] at hloop
              cases verr with
              | some e => simp at hloop
              | none => exact ih _ hloop hrest

/-! ## The compaction loop -/

theorem getServicesAccessForOrg_eq_filter (servicesAccess : List ServiceAccess)
    (orgId : String) :
    getServicesAccessForOrg servicesAccess orgId =
      servicesAccess.filter (fun serviceAccess => decide (serviceAccess.OrgId = orgId)) := by
  unfold getServicesAccessForOrg
  have h := foldl_append_if_filter
    (fun serviceAccess : ServiceAccess => decide (serviceAccess.OrgId = orgId)) servicesAccess []
  simp only [decide_eq_true_eq, List.nil_append] at h
  exact h

/-- Every record of `onlyWithOrg` is the collapse of an input record whose
organization has exactly `numberPlan` records in the whole input. -/
theorem splitServiceAccessLoop_mem_fst (all : List ServiceAccess) (numberPlan : Int)
    (servicesAccess : List ServiceAccess) (orgs : List String)
    (onlyWithOrg full : List ServiceAccess) :
    ∀ r ∈ (splitServiceAccessLoop all numberPlan servicesAccess orgs onlyWithOrg full).1,
      r ∈ onlyWithOrg ∨ ∃ r0 ∈ servicesAccess, r = ⟨r0.Service, "", r0.OrgId⟩ ∧
        ((getServicesAccessForOrg all r0.OrgId).length : Int) = numberPlan := by
  induction servicesAccess generalizing orgs onlyWithOrg full with
  | nil =>
    intro r hr
    left
    simpa [splitServiceAccessLoop] using hr
  | cons head rest ih =>
    intro r hr
    rw [splitServiceAccessLoop] at hr
    by_cases hkey : (head.OrgId ++ head.Plan) ∈ orgs
    · rw [if_pos hkey] at hr
      rcases ih _ _ _ r hr with h | ⟨r0, hr0, hrest⟩
      · exact Or.inl h
      · exact Or.inr ⟨r0, by simp [hr0], hrest⟩
    · rw [if_neg hkey] at hr
      by_cases hcount : ((getServicesAccessForOrg all head.OrgId).length : Int) = numberPlan
      · rw [if_pos hcount] at hr
        rcases ih _ _ _ r hr with h | ⟨r0, hr0, hrest⟩
        · rcases List.mem_append.mp h with h | h
          · exact Or.inl h
          · right
            refine ⟨head, by simp, ?_, hcount⟩
            simpa using h
        · exact Or.inr ⟨r0, by simp [hr0], hrest⟩
      · rw [if_neg hcount] at hr
        rcases ih _ _ _ r hr with h | ⟨r0, hr0, hrest⟩
        · exact Or.inl h
        · exact Or.inr ⟨r0, by simp [hr0], hrest⟩

/-- Every record of `full` is an input record. -/
theorem splitServiceAccessLoop_mem_snd (all : List ServiceAccess) (numberPlan : Int)
    (servicesAccess : List ServiceAccess) (orgs : List String)
    (onlyWithOrg full : List ServiceAccess) :
    ∀ r ∈ (splitServiceAccessLoop all numberPlan servicesAccess orgs onlyWithOrg full).2,
      r ∈ full ∨ r ∈ servicesAccess := by
  induction servicesAccess generalizing orgs onlyWithOrg full with
  | nil =>
    intro r hr
    left
    simpa [splitServiceAccessLoop] using hr
  | cons head rest ih =>
    intro r hr
    rw [splitServiceAccessLoop] at hr
    by_cases hkey : (head.OrgId ++ head.Plan) ∈ orgs
    · rw [if_pos hkey] at hr
      rcases ih _ _ _ r hr with h | h
      · exact Or.inl h
      · exact Or.inr (by simp [h])
    · rw [if_neg hkey] at hr
      by_cases hcount : ((getServicesAccessForOrg all head.OrgId).length : Int) = numberPlan
      · rw [if_pos hcount] at hr
        rcases ih _ _ _ r hr with h | h
        · exact Or.inl h
        · exact Or.inr (by simp [h])
      · rw [if_neg hcount] at hr
        rcases ih _ _ _ r hr with h | h
        · rcases List.mem_append.mp h with h | h
          · exact Or.inl h
          · right
            have hrh : r = head := by simpa using h
            simp [hrh]
        · exact Or.inr (by simp [h])

/-- When no organization of the input has exactly `numberPlan` records, the
loop collapses nothing and returns every record in `full`. -/
theorem splitServiceAccessLoop_no_collapse (all : List ServiceAccess) (numberPlan : Int)
    (servicesAccess : List ServiceAccess) (onlyWithOrg full : List ServiceAccess)
    (hcount : ∀ r ∈ servicesAccess,
      ((getServicesAccessForOrg all r.OrgId).length : Int) ≠ numberPlan) :
    splitServiceAccessLoop all numberPlan servicesAccess [] onlyWithOrg full =
      (onlyWithOrg, full ++ servicesAccess) := by
  induction servicesAccess generalizing full with
  | nil => simp [splitServiceAccessLoop]
  | cons head rest ih =>
    rw [splitServiceAccessLoop]
    have hhead := hcount head (by simp)
    simp only [List.not_mem_nil, if_false, hhead]
    rw [ih _ (fun r hr => hcount r (by simp [hr]))]
    simp

theorem splitServiceAccessLoop_fst_mono (all : List ServiceAccess) (numberPlan : Int)
    (servicesAccess : List ServiceAccess) (orgs : List String)
    (onlyWithOrg full : List ServiceAccess) (x : ServiceAccess) (hx : x ∈ onlyWithOrg) :
    x ∈ (splitServiceAccessLoop all numberPlan servicesAccess orgs onlyWithOrg full).1 := by
  induction servicesAccess generalizing orgs onlyWithOrg full with
  | nil => simpa [splitServiceAccessLoop] using hx
  | cons head rest ih =>
    rw [splitServiceAccessLoop]
    by_cases hkey : (head.OrgId ++ head.Plan) ∈ orgs
    · rw [if_pos hkey]
      exact ih _ _ _ hx
    · rw [if_neg hkey]
      by_cases hcount : ((getServicesAccessForOrg all head.OrgId).length : Int) = numberPlan
      · rw [if_pos hcount]
        exact ih _ _ _ (by simp [hx])
      · rw [if_neg hcount]
        exact ih _ _ _ hx

theorem splitServiceAccessLoop_snd_mono (all : List ServiceAccess) (numberPlan : Int)
    (servicesAccess : List ServiceAccess) (orgs : List String)
    (onlyWithOrg full : List ServiceAccess) (x : ServiceAccess) (hx : x ∈ full) :
    x ∈ (splitServiceAccessLoop all numberPlan servicesAccess orgs onlyWithOrg full).2 := by
  induction servicesAccess generalizing orgs onlyWithOrg full with
  | nil => simpa [splitServiceAccessLoop] using hx
  | cons head rest ih =>
    rw [splitServiceAccessLoop]
    by_cases hkey : (head.OrgId ++ head.Plan) ∈ orgs
    · rw [if_pos hkey]
      exact ih _ _ _ hx
    · rw [if_neg hkey]
      by_cases hcount : ((getServicesAccessForOrg all head.OrgId).length : Int) = numberPlan
      · rw [if_pos hcount]
        exact ih _ _ _ hx
      · rw [if_neg hcount]
        exact ih _ _ _ (by simp [hx])

/-- When no two input records of different organizations or services share the
key `OrgId ++ Plan`, every input record is represented in the output of the
loop: it is in `full`, or its organization is collapsed in `onlyWithOrg`. -/
theorem splitServiceAccessLoop_represented (all : List ServiceAccess) (numberPlan : Int)
    (servicesAccess : List ServiceAccess) (orgs : List String)
    (onlyWithOrg full : List ServiceAccess)
    (hsub : ∀ x ∈ servicesAccess, x ∈ all)
    (hinv : ∀ k ∈ orgs, ∃ c ∈ all, k = c.OrgId ++ c.Plan ∧
      (⟨c.Service, "", c.OrgId⟩ : ServiceAccess) ∈ onlyWithOrg)
    (hclash : ∀ a ∈ all, ∀ b ∈ all, a.OrgId ++ a.Plan = b.OrgId ++ b.Plan →
      a.OrgId = b.OrgId ∧ a.Service = b.Service) :
    ∀ r ∈ servicesAccess,
      r ∈ (splitServiceAccessLoop all numberPlan servicesAccess orgs onlyWithOrg full).2 ∨
      (⟨r.Service, "", r.OrgId⟩ : ServiceAccess) ∈
        (splitServiceAccessLoop all numberPlan servicesAccess orgs onlyWithOrg full).1 := by
  induction servicesAccess generalizing orgs onlyWithOrg full with
  | nil => simp
  | cons head rest ih =>
    have hhead : head ∈ all := hsub head (by simp)
    have hrest : ∀ x ∈ rest, x ∈ all := fun x hx => hsub x (by simp [hx])
    intro r hr
    rw [splitServiceAccessLoop]
    by_cases hkey : (head.OrgId ++ head.Plan) ∈ orgs
    · rw [if_pos hkey]
      rcases List.mem_cons.mp hr with rfl | hr
      · right
        obtain ⟨c, hc, hk, hmem⟩ := hinv _ hkey
        obtain ⟨horg, hservice⟩ := hclash r hhead c hc hk
        rw [horg, hservice]
        exact splitServiceAccessLoop_fst_mono _ _ _ _ _ _ _ hmem
      · exact ih _ _ _ hrest hinv r hr
    · rw [if_neg hkey]
      by_cases hcount : ((getServicesAccessForOrg all head.OrgId).length : Int) = numberPlan
      · rw [if_pos hcount]
        have hinv2 : ∀ k ∈ (head.OrgId ++ head.Plan) :: orgs, ∃ c ∈ all,
            k = c.OrgId ++ c.Plan ∧ (⟨c.Service, "", c.OrgId⟩ : ServiceAccess) ∈
              onlyWithOrg ++ [{ Service := head.Service, Plan := "", OrgId := head.OrgId }] := by
          intro k hk
          rcases List.mem_cons.mp hk with rfl | hk
          · exact ⟨head, hhead, rfl, by simp⟩
          · obtain ⟨c, hc, hkc, hmem⟩ := hinv k hk
            exact ⟨c, hc, hkc, by simp [hmem]⟩
        rcases List.mem_cons.mp hr with rfl | hr
        · right
          exact splitServiceAccessLoop_fst_mono _ _ _ _ _ _ _ (by simp)
        · exact ih _ _ _ hrest hinv2 r hr
      · rw [if_neg hcount]
        rcases List.mem_cons.mp hr with rfl | hr
        · left
          exact splitServiceAccessLoop_snd_mono _ _ _ _ _ _ _ (by simp)
        · exact ih _ _ _ hrest hinv r hr

/-! ## Membership in the output of the normalisation -/

theorem retrieveServicesLoop_cons_records (client : Client) (service : ServiceOffering)
    (rest : List ServiceOffering) (servicesAccess : List ServiceAccess) (scan : PlanScan)
    (hscan : retrievePlansLoop client service service.Plans
      { servicesAccessInAllOrgsTemp := []
        servicesAccessOrgAndPlanTemp := []
        haveAllPlanInAllOrg := true } = .ok scan) :
    retrieveServicesLoop client (service :: rest) servicesAccess =
      retrieveServicesLoop client rest (servicesAccess ++ serviceRecords service scan) := by
  rw [retrieveServicesLoop_cons_ok client service rest servicesAccess scan hscan]
  rfl

/-- A property that holds of the records every scanned service contributes
holds of every record of the output, also of the output returned next to an
error. -/
theorem mem_retrieveServicesLoop (client : Client)
    (P : ServiceOffering → ServiceAccess → Prop) (services : List ServiceOffering)
    (servicesAccess : List ServiceAccess)
    (hP : ∀ service ∈ services, ∀ scan,
      retrievePlansLoop client service service.Plans
        { servicesAccessInAllOrgsTemp := []
          servicesAccessOrgAndPlanTemp := []
          haveAllPlanInAllOrg := true } = .ok scan →
      ∀ r ∈ serviceRecords service scan, P service r) :
    ∀ r ∈ (retrieveServicesLoop client services servicesAccess).1,
      r ∈ servicesAccess ∨ ∃ service ∈ services, P service r := by
  induction services generalizing servicesAccess with
  | nil =>
    intro r hr
    left
    simpa [retrieveServicesLoop] using hr
  | cons service rest ih =>
    intro r hr
    have hrest : ∀ x ∈ rest, ∀ scan,
        retrievePlansLoop client x x.Plans
          { servicesAccessInAllOrgsTemp := []
            servicesAccessOrgAndPlanTemp := []
            haveAllPlanInAllOrg := true } = .ok scan →
        ∀ r ∈ serviceRecords x scan, P x r :=
      fun x hx => hP x (by simp [hx])
    cases hscan : retrievePlansLoop client service service.Plans
        { servicesAccessInAllOrgsTemp := []
          servicesAccessOrgAndPlanTemp := []
          haveAllPlanInAllOrg := true } with
    | error err =>
      rw [retrieveServicesLoop_cons_error client service rest _ err hscan] at hr
      exact Or.inl hr
    | ok scan =>
      rw [retrieveServicesLoop_cons_records client service rest _ scan hscan] at hr
      rcases ih _ hrest r hr with h | ⟨x, hx, hPx⟩
      · rcases List.mem_append.mp h with h | h
        · exact Or.inl h
        · exact Or.inr ⟨service, by simp, hP service (by simp) scan hscan r h⟩
      · exact Or.inr ⟨x, by simp [hx], hPx⟩

theorem mem_retrieveServicesAccessFromBroker (client : Client) (serviceBroker : ServiceBroker)
    (P : ServiceOffering → ServiceAccess → Prop)
    (hP : ∀ service ∈ serviceBroker.Services, ∀ scan,
      retrievePlansLoop client service service.Plans
        { servicesAccessInAllOrgsTemp := []
          servicesAccessOrgAndPlanTemp := []
          haveAllPlanInAllOrg := true } = .ok scan →
      ∀ r ∈ serviceRecords service scan, P service r) :
    ∀ r ∈ (retrieveServicesAccessFromBroker client serviceBroker).1,
      ∃ service ∈ serviceBroker.Services, P service r := by
  intro r hr
  rcases mem_retrieveServicesLoop client P serviceBroker.Services [] hP r hr with h | h
  · simp at h
  · exact h

/-! ## Searches of the store -/

theorem searchStore_plan (store : List ServicePlanVisibilityFields) (planGuid : String) :
    searchStore store { service_plan_guid := some planGuid, organization_guid := none } =
      store.filter (fun visibility => decide (visibility.ServicePlanGUID = planGuid)) := by
  unfold searchStore
  apply List.filter_congr
  intro visibility _
  by_cases h : visibility.ServicePlanGUID = planGuid <;> simp [h]

theorem mem_searchStore_plan (store : List ServicePlanVisibilityFields) (planGuid : String)
    (visibility : ServicePlanVisibilityFields) :
    visibility ∈ searchStore store
        { service_plan_guid := some planGuid, organization_guid := none } ↔
      visibility ∈ store ∧ visibility.ServicePlanGUID = planGuid := by
  rw [searchStore_plan]
  simp

theorem mem_searchStore_plan_org (store : List ServicePlanVisibilityFields)
    (planGuid orgGuid : String) (visibility : ServicePlanVisibilityFields) :
    visibility ∈ searchStore store
        { service_plan_guid := some planGuid, organization_guid := some orgGuid } ↔
      visibility ∈ store ∧ visibility.ServicePlanGUID = planGuid ∧
        visibility.OrganizationGUID = orgGuid := by
  unfold searchStore
  simp

/-- In a keyed store at most one grant of a plan goes to a given
organization. -/
theorem keyed_search_org_le_one (store : List ServicePlanVisibilityFields)
    (planGuid orgGuid : String) (hkeyed : Keyed store) :
    ((searchStore store { service_plan_guid := some planGuid, organization_guid := none }).filter
      (fun visibility => decide (visibility.OrganizationGUID = orgGuid))).length ≤ 1 := by
  rw [searchStore_plan]
  induction store with
  | nil => simp
  | cons head rest ih =>
    unfold Keyed at hkeyed
    rw [List.map_cons, List.nodup_cons] at hkeyed
    obtain ⟨hnot, hrest⟩ := hkeyed
    have ihrest := ih hrest
    by_cases hhead : head.ServicePlanGUID = planGuid ∧ head.OrganizationGUID = orgGuid
    · have hnil : (rest.filter
          (fun visibility => decide (visibility.ServicePlanGUID = planGuid))).filter
          (fun visibility => decide (visibility.OrganizationGUID = orgGuid)) = [] := by
        rw [List.filter_eq_nil_iff]
        intro x hx
        rw [List.mem_filter] at hx
        intro hxo
        apply hnot
        rw [List.mem_map]
        refine ⟨x, hx.1, ?_⟩
        have hxp : x.ServicePlanGUID = planGuid := by simpa using hx.2
        have hxo2 : x.OrganizationGUID = orgGuid := by simpa using hxo
        rw [hxp, hxo2, hhead.1, hhead.2]
      simp [List.filter_cons, hhead.1, hhead.2, hnil]
    · by_cases hp : head.ServicePlanGUID = planGuid
      · have ho : ¬ head.OrganizationGUID = orgGuid := fun ho => hhead ⟨hp, ho⟩
        simpa [List.filter_cons, hp, ho] using ihrest
      · simpa [List.filter_cons, hp] using ihrest

theorem getPlanVisibilitiesForPlan_answers (client : Client)
    (store : List ServicePlanVisibilityFields) (planGuid : String)
    (hans : AnswersFrom client store)
    (hok : (getPlanVisibilitiesForPlan client planGuid).2 = none) :
    (getPlanVisibilitiesForPlan client planGuid).1 =
      searchStore store { service_plan_guid := some planGuid, organization_guid := none } := by
  unfold getPlanVisibilitiesForPlan at hok ⊢
  cases hsearch : client.Search
      { service_plan_guid := some planGuid, organization_guid := none } with
  | error msg =>
    rw [hsearch] at hok
    simp at hok
  | ok visibilities =>
    simp only
    exact hans _ _ hsearch

/-! ## Counting the records of one organization -/

theorem length_filter_flatMap {α β : Type} (l : List α) (f : α → List β) (q : β → Bool) :
    ((l.flatMap f).filter q).length = (l.map (fun x => ((f x).filter q).length)).sum := by
  induction l with
  | nil => simp
  | cons x xs ih => simp [List.flatMap_cons, List.filter_append, ih]

theorem sum_map_le_length {α : Type} (l : List α) (g : α → Nat) (hle : ∀ x ∈ l, g x ≤ 1) :
    (l.map g).sum ≤ l.length := by
  induction l with
  | nil => simp
  | cons x xs ih =>
    have hx := hle x (by simp)
    have hxs := ih (fun y hy => hle y (by simp [hy]))
    simp only [List.map_cons, List.sum_cons, List.length_cons]
    omega

theorem sum_map_eq_length {α : Type} (l : List α) (g : α → Nat) (hle : ∀ x ∈ l, g x ≤ 1)
    (hsum : (l.map g).sum = l.length) : ∀ x ∈ l, g x = 1 := by
  induction l with
  | nil => simp
  | cons x xs ih =>
    have hx := hle x (by simp)
    have hxs := sum_map_le_length xs g (fun y hy => hle y (by simp [hy]))
    simp only [List.map_cons, List.sum_cons, List.length_cons] at hsum
    intro y hy
    rcases List.mem_cons.mp hy with rfl | hy
    · omega
    · exact ih (fun z hz => hle z (by simp [hz])) (by omega) y hy

theorem mem_planRecords (client : Client) (service : ServiceOffering)
    (plan : ServicePlanFields) (r : ServiceAccess) :
    r ∈ planRecords client service plan ↔
      ∃ visibility ∈ (getPlanVisibilitiesForPlan client plan.GUID).1,
        r = ⟨service.Label, plan.Name, visibility.OrganizationGUID⟩ := by
  unfold planRecords
  rw [List.mem_map]
  constructor
  · rintro ⟨v, hv, rfl⟩
    exact ⟨v, hv, rfl⟩
  · rintro ⟨v, hv, rfl⟩
    exact ⟨v, hv, rfl⟩

theorem planRecords_org_length (client : Client) (store : List ServicePlanVisibilityFields)
    (service : ServiceOffering) (plan : ServicePlanFields) (orgId : String)
    (hans : AnswersFrom client store)
    (hok : (getPlanVisibilitiesForPlan client plan.GUID).2 = none) :
    ((planRecords client service plan).filter (fun r => decide (r.OrgId = orgId))).length =
      ((searchStore store
          { service_plan_guid := some plan.GUID, organization_guid := none }).filter
        (fun visibility => decide (visibility.OrganizationGUID = orgId))).length := by
  unfold planRecords
  rw [getPlanVisibilitiesForPlan_answers client store plan.GUID hans hok, List.filter_map,
    List.length_map]
  rfl

/-- The records of one organization among the explicit records of the plans
`explicit`, over a keyed store: there are at most as many as plans, and when
there are as many, the organization holds a grant on each of the plans. -/
theorem explicit_records_of_org (client : Client) (store : List ServicePlanVisibilityFields)
    (service : ServiceOffering) (explicit : List ServicePlanFields) (orgId : String)
    (hans : AnswersFrom client store) (hkeyed : Keyed store)
    (hok : ∀ plan ∈ explicit, (getPlanVisibilitiesForPlan client plan.GUID).2 = none) :
    ((explicit.flatMap (planRecords client service)).filter
        (fun r => decide (r.OrgId = orgId))).length ≤ explicit.length ∧
    (((explicit.flatMap (planRecords client service)).filter
        (fun r => decide (r.OrgId = orgId))).length = explicit.length →
      ∀ plan ∈ explicit, ∃ visibility ∈ store,
        visibility.ServicePlanGUID = plan.GUID ∧ visibility.OrganizationGUID = orgId) := by
  rw [length_filter_flatMap]
  have hle : ∀ plan ∈ explicit,
      ((planRecords client service plan).filter
        (fun r => decide (r.OrgId = orgId))).length ≤ 1 := by
    intro plan hplan
    rw [planRecords_org_length client store service plan orgId hans (hok plan hplan)]
    exact keyed_search_org_le_one store plan.GUID orgId hkeyed
  refine ⟨sum_map_le_length explicit _ hle, ?_⟩
  intro hsum plan hplan
  have hone := sum_map_eq_length explicit _ hle hsum plan hplan
  rw [planRecords_org_length client store service plan orgId hans (hok plan hplan)] at hone
  have hpos : 0 < ((searchStore store
      { service_plan_guid := some plan.GUID, organization_guid := none }).filter
      (fun visibility => decide (visibility.OrganizationGUID = orgId))).length := by omega
  obtain ⟨visibility, hmem⟩ := List.exists_mem_of_length_pos hpos
  rw [List.mem_filter, mem_searchStore_plan] at hmem
  exact ⟨visibility, hmem.1.1, hmem.1.2, by simpa using hmem.2⟩

/-- The scan of a service that ends with the flag cleared: no plan is public,
and the two lists of records are those of the plans granted to every
organization and of the other plans. -/
theorem retrievePlansLoop_flag_cleared (client : Client) (service : ServiceOffering)
    (scan : PlanScan)
    (hscan : retrievePlansLoop client service service.Plans
      { servicesAccessInAllOrgsTemp := []
        servicesAccessOrgAndPlanTemp := []
        haveAllPlanInAllOrg := true } = .ok scan)
    (hflag : scan.haveAllPlanInAllOrg = false) :
    (∀ plan ∈ service.Plans, plan.Public = false) ∧
    scan.servicesAccessInAllOrgsTemp =
      (service.Plans.filter (fun plan => (isPlanInAllOrgs client plan.GUID).1)).map
        (fun plan => ⟨service.Label, plan.Name, ""⟩) ∧
    scan.servicesAccessOrgAndPlanTemp =
      (service.Plans.filter (fun plan => !(isPlanInAllOrgs client plan.GUID).1)).flatMap
        (planRecords client service) ∧
    (∀ plan ∈ service.Plans, (isPlanInAllOrgs client plan.GUID).2 = none ∧
      ((isPlanInAllOrgs client plan.GUID).1 = false →
        (getPlanVisibilitiesForPlan client plan.GUID).2 = none)) := by
  have hnopub : ∀ plan ∈ service.Plans, plan.Public = false := by
    intro plan hplan
    by_contra hpub
    have hpub2 : plan.Public = true := by simpa using hpub
    have := retrievePlansLoop_flag_of_public client service service.Plans _ scan hscan
      ⟨plan, hplan, hpub2⟩
    rw [hflag] at this
    exact absurd this (by simp)
  obtain ⟨h1, h2, -, h4⟩ :=
    retrievePlansLoop_no_public client service service.Plans _ scan hnopub hscan
  refine ⟨hnopub, ?_, ?_, h4⟩
  · simpa using h1
  · simpa using h2

/-! ## Validity of the compact records -/

theorem serviceRecords_collapsed_valid (client : Client)
    (store : List ServicePlanVisibilityFields) (service : ServiceOffering) (scan : PlanScan)
    (hans : AnswersFrom client store) (hkeyed : Keyed store)
    (hnames : ∀ plan ∈ service.Plans, plan.Name ≠ "")
    (hscan : retrievePlansLoop client service service.Plans
      { servicesAccessInAllOrgsTemp := []
        servicesAccessOrgAndPlanTemp := []
        haveAllPlanInAllOrg := true } = .ok scan) :
    ∀ r ∈ serviceRecords service scan, r.Plan = "" → r.OrgId ≠ "" →
      r.Service = service.Label ∧ ∀ plan ∈ service.Plans, ∃ visibility ∈ store,
        visibility.ServicePlanGUID = plan.GUID ∧ visibility.OrganizationGUID = r.OrgId := by
  intro r hr hplan horg
  unfold serviceRecords at hr
  cases hflag : scan.haveAllPlanInAllOrg with
  | true =>
    simp [hflag] at hr
    rw [hr] at horg
    exact absurd rfl horg
  | false =>
    simp only [hflag, Bool.false_eq_true, if_false] at hr
    obtain ⟨-, hinAll, hexp, hlook⟩ :=
      retrievePlansLoop_flag_cleared client service scan hscan hflag
    have hE : ∀ r0 ∈ scan.servicesAccessOrgAndPlanTemp, ∃ plan ∈ service.Plans,
        ∃ visibility ∈ (getPlanVisibilitiesForPlan client plan.GUID).1,
          r0 = ⟨service.Label, plan.Name, visibility.OrganizationGUID⟩ := by
      intro r0 hr0
      rw [hexp, List.mem_flatMap] at hr0
      obtain ⟨plan, hplanmem, hrec⟩ := hr0
      rw [mem_planRecords] at hrec
      exact ⟨plan, (List.mem_filter.mp hplanmem).1, hrec⟩
    rcases List.mem_append.mp hr with hr | hr
    · rcases List.mem_append.mp hr with hr | hr
      · rw [hinAll, List.mem_map] at hr
        obtain ⟨plan, -, rfl⟩ := hr
        exact absurd rfl horg
      · unfold splitServiceAccess at hr
        rcases splitServiceAccessLoop_mem_fst _ _ _ _ _ _ r hr with h | ⟨r0, hr0, hreq, hcount⟩
        · simp at h
        · obtain ⟨plan0, -, v0, -, hr0eq⟩ := hE r0 hr0
          have hservice : r.Service = service.Label := by rw [hreq, hr0eq]
          have horgeq : r.OrgId = r0.OrgId := by rw [hreq]
          refine ⟨hservice, ?_⟩
          rw [getServicesAccessForOrg_eq_filter, hexp] at hcount
          have hcountNat : ((List.flatMap
              (List.filter (fun plan => !(isPlanInAllOrgs client plan.GUID).1) service.Plans)
              (planRecords client service)).filter
              (fun r => decide (r.OrgId = r0.OrgId))).length = service.Plans.length := by
            exact_mod_cast hcount
          have hok : ∀ plan ∈ service.Plans.filter
              (fun plan => !(isPlanInAllOrgs client plan.GUID).1),
              (getPlanVisibilitiesForPlan client plan.GUID).2 = none := by
            intro plan hmem
            rw [List.mem_filter] at hmem
            exact (hlook plan hmem.1).2 (by simpa using hmem.2)
          obtain ⟨hle, hfull⟩ := explicit_records_of_org client store service _ r0.OrgId
            hans hkeyed hok
          have hfl := List.length_filter_le
            (fun plan => !(isPlanInAllOrgs client plan.GUID).1) service.Plans
          have hlen : (service.Plans.filter
              (fun plan => !(isPlanInAllOrgs client plan.GUID).1)).length =
              service.Plans.length := by omega
          have hall := hfull (by omega)
          have hself : service.Plans.filter
              (fun plan => !(isPlanInAllOrgs client plan.GUID).1) = service.Plans :=
            List.filter_eq_self.mpr (List.filter_length_eq_length.mp hlen)
          rw [hself] at hall
          intro plan hplanmem
          rw [horgeq]
          exact hall plan hplanmem
    · unfold splitServiceAccess at hr
      rcases splitServiceAccessLoop_mem_snd _ _ _ _ _ _ r hr with h | h
      · simp at h
      · obtain ⟨plan, hplanmem, v, -, hreq⟩ := hE r h
        rw [hreq] at hplan
        exact absurd hplan (hnames plan hplanmem)

/-- C12, as stated, fails: on a catalog whose first plan has the empty name,
with that plan granted to `o1` alone and `p2` granted to nobody, the grant is
emitted as the record `(S, ∅, o1)`, of the form (service, ∅, org), although
`o1` has no grant on `p2`. -/
theorem retrieveServicesAccessFromBroker_org_record_invalid :
    retrieveServicesAccessFromBroker
        (storeClient [⟨"o1"⟩, ⟨"o2"⟩] [⟨"v1", "pg1", "o1"⟩]) emptyPlanNameBroker =
      ([⟨"S", "", "o1"⟩], none) ∧
    Keyed [⟨"v1", "pg1", "o1"⟩] ∧
    ¬ ∃ visibility ∈ [(⟨"v1", "pg1", "o1"⟩ : ServicePlanVisibilityFields)],
      visibility.ServicePlanGUID = "pg2" ∧ visibility.OrganizationGUID = "o1" := by
  refine ⟨by decide, by decide, by decide⟩

/-- C12, amended: for every catalog whose plan names are non-empty, every
state of the keyed Visibility Store and every client that answers its searches
from the store or fails, each record `(service, ∅,
org)` with org present in the output of `retrieveServicesAccessFromBroker`,
also in the output returned next to an error, is valid: a service of the
catalog carries that label and the organization has a grant in the store on
every plan of that service. -/
theorem retrieveServicesAccessFromBroker_org_record_valid (client : Client)
    (store : List ServicePlanVisibilityFields) (serviceBroker : ServiceBroker)
    (hans : AnswersFrom client store) (hkeyed : Keyed store)
    (hnames : ∀ service ∈ serviceBroker.Services, ∀ plan ∈ service.Plans, plan.Name ≠ "") :
    ∀ r ∈ (retrieveServicesAccessFromBroker client serviceBroker).1,
      r.Plan = "" → r.OrgId ≠ "" →
      ∃ service ∈ serviceBroker.Services, r.Service = service.Label ∧
        ∀ plan ∈ service.Plans, ∃ visibility ∈ store,
          visibility.ServicePlanGUID = plan.GUID ∧ visibility.OrganizationGUID = r.OrgId := by
  intro r hr hplan horg
  obtain ⟨service, hservice, hP⟩ := mem_retrieveServicesAccessFromBroker client serviceBroker
    (fun service r => r.Plan = "" → r.OrgId ≠ "" →
      r.Service = service.Label ∧ ∀ plan ∈ service.Plans, ∃ visibility ∈ store,
        visibility.ServicePlanGUID = plan.GUID ∧ visibility.OrganizationGUID = r.OrgId)
    (fun service hservice scan hscan =>
      serviceRecords_collapsed_valid client store service scan hans hkeyed
        (hnames service hservice) hscan)
    r hr
  exact ⟨service, hservice, hP hplan horg⟩

/-- The three shapes of the records a scanned service contributes: a record
without plan; a record without organization for a plan that `isPlanInAllOrgs`
found granted to every organization; a record for a visibility returned by the
search on a plan. -/
theorem serviceRecords_shape (client : Client) (service : ServiceOffering) (scan : PlanScan)
    (hscan : retrievePlansLoop client service service.Plans
      { servicesAccessInAllOrgsTemp := []
        servicesAccessOrgAndPlanTemp := []
        haveAllPlanInAllOrg := true } = .ok scan) :
    ∀ r ∈ serviceRecords service scan, r.Service = service.Label ∧
      (r.Plan = "" ∨
        (r.OrgId = "" ∧ ∃ plan ∈ service.Plans, r.Plan = plan.Name ∧
          isPlanInAllOrgs client plan.GUID = (true, none)) ∨
        (∃ plan ∈ service.Plans, r.Plan = plan.Name ∧
          (getPlanVisibilitiesForPlan client plan.GUID).2 = none ∧
          ∃ visibility ∈ (getPlanVisibilitiesForPlan client plan.GUID).1,
            r.OrgId = visibility.OrganizationGUID)) := by
  intro r hr
  unfold serviceRecords at hr
  cases hflag : scan.haveAllPlanInAllOrg with
  | true =>
    simp [hflag] at hr
    rw [hr]
    exact ⟨rfl, Or.inl rfl⟩
  | false =>
    simp only [hflag, Bool.false_eq_true, if_false] at hr
    obtain ⟨-, hinAll, hexp, hlook⟩ :=
      retrievePlansLoop_flag_cleared client service scan hscan hflag
    have hE : ∀ r0 ∈ scan.servicesAccessOrgAndPlanTemp, ∃ plan ∈ service.Plans,
        (getPlanVisibilitiesForPlan client plan.GUID).2 = none ∧
        ∃ visibility ∈ (getPlanVisibilitiesForPlan client plan.GUID).1,
          r0 = ⟨service.Label, plan.Name, visibility.OrganizationGUID⟩ := by
      intro r0 hr0
      rw [hexp, List.mem_flatMap] at hr0
      obtain ⟨plan, hplanmem, hrec⟩ := hr0
      rw [mem_planRecords] at hrec
      rw [List.mem_filter] at hplanmem
      exact ⟨plan, hplanmem.1, (hlook plan hplanmem.1).2 (by simpa using hplanmem.2), hrec⟩
    rcases List.mem_append.mp hr with hr | hr
    · rcases List.mem_append.mp hr with hr | hr
      · rw [hinAll, List.mem_map] at hr
        obtain ⟨plan, hplanmem, rfl⟩ := hr
        rw [List.mem_filter] at hplanmem
        refine ⟨rfl, Or.inr (Or.inl ⟨rfl, plan, hplanmem.1, rfl, ?_⟩)⟩
        exact Prod.ext hplanmem.2 (hlook plan hplanmem.1).1
      · unfold splitServiceAccess at hr
        rcases splitServiceAccessLoop_mem_fst _ _ _ _ _ _ r hr with h | ⟨r0, hr0, hreq, -⟩
        · simp at h
        · obtain ⟨plan0, -, -, v0, -, hr0eq⟩ := hE r0 hr0
          rw [hreq, hr0eq]
          exact ⟨rfl, Or.inl rfl⟩
    · unfold splitServiceAccess at hr
      rcases splitServiceAccessLoop_mem_snd _ _ _ _ _ _ r hr with h | h
      · simp at h
      · obtain ⟨plan, hplanmem, hok, v, hv, hreq⟩ := hE r h
        rw [hreq]
        exact ⟨rfl, Or.inr (Or.inr ⟨plan, hplanmem, rfl, hok, v, hv, rfl⟩)⟩

theorem storeClient_answersFrom (orgs : List Organization)
    (store : List ServicePlanVisibilityFields) :
    AnswersFrom (storeClient orgs store) store := by
  intro filter visibilities h
  simp only [storeClient, Except.ok.injEq] at h
  exact h.symm

/-- Witness of the amended C12: `p1` and `p2` are both granted to `o1` alone;
the record `(S, ∅, o1)` is in the output and `o1` has a grant on every plan of
`S`. -/
theorem retrieveServicesAccessFromBroker_org_record_valid_witness :
    (⟨"S", "", "o1"⟩ : ServiceAccess) ∈ (retrieveServicesAccessFromBroker
        (storeClient [⟨"o1"⟩, ⟨"o2"⟩] [⟨"v1", "pg1", "o1"⟩, ⟨"v2", "pg2", "o1"⟩])
        twoPlansBroker).1 ∧
    ∃ service ∈ twoPlansBroker.Services, "S" = service.Label ∧
      ∀ plan ∈ service.Plans, ∃ visibility ∈
          [(⟨"v1", "pg1", "o1"⟩ : ServicePlanVisibilityFields), ⟨"v2", "pg2", "o1"⟩],
        visibility.ServicePlanGUID = plan.GUID ∧ visibility.OrganizationGUID = "o1" :=
  ⟨by decide,
   retrieveServicesAccessFromBroker_org_record_valid
     (storeClient [⟨"o1"⟩, ⟨"o2"⟩] [⟨"v1", "pg1", "o1"⟩, ⟨"v2", "pg2", "o1"⟩])
     [⟨"v1", "pg1", "o1"⟩, ⟨"v2", "pg2", "o1"⟩] twoPlansBroker
     (storeClient_answersFrom _ _) (by decide) (by decide) ⟨"S", "", "o1"⟩ (by decide) rfl
     (by decide)⟩

/-- C13, as stated, fails when the service has a public plan.  With the public
plan `p2` after the plan `p1`, which is granted to `o1` and lacks a grant for
`o2`, the output is the single record `(S, ∅, ∅)`: the grant of `p1` returned
by the store is emitted neither as `(S, p1, o1)` nor as part of a collapsed
`(S, ∅, o1)`. -/
theorem retrieveServicesAccessFromBroker_plan_record_invalid :
    retrieveServicesAccessFromBroker
        (storeClient [⟨"o1"⟩, ⟨"o2"⟩] [⟨"v1", "pg1", "o1"⟩]) publicPlanBroker =
      ([⟨"S", "", ""⟩], none) ∧
    searchStore [⟨"v1", "pg1", "o1"⟩]
        { service_plan_guid := some "pg1", organization_guid := none } =
      [⟨"v1", "pg1", "o1"⟩] ∧
    searchStore [⟨"v1", "pg1", "o1"⟩]
        { service_plan_guid := some "pg1", organization_guid := some "o2" } = [] ∧
    (⟨"S", "p1", "o1"⟩ : ServiceAccess) ∉ (retrieveServicesAccessFromBroker
      (storeClient [⟨"o1"⟩, ⟨"o2"⟩] [⟨"v1", "pg1", "o1"⟩]) publicPlanBroker).1 ∧
    (⟨"S", "", "o1"⟩ : ServiceAccess) ∉ (retrieveServicesAccessFromBroker
      (storeClient [⟨"o1"⟩, ⟨"o2"⟩] [⟨"v1", "pg1", "o1"⟩]) publicPlanBroker).1 := by
  refine ⟨by decide, by decide, by decide, by decide, by decide⟩

/-- A scan over plans none of which is public ends without error when the
lookups made for the plans succeed. -/
theorem retrievePlansLoop_ok_of_lookups (client : Client) (service : ServiceOffering)
    (plans : List ServicePlanFields) (scan : PlanScan)
    (hnopub : ∀ plan ∈ plans, plan.Public = false)
    (hlook : ∀ plan ∈ plans, (isPlanInAllOrgs client plan.GUID).2 = none ∧
      ((isPlanInAllOrgs client plan.GUID).1 = false →
        (getPlanVisibilitiesForPlan client plan.GUID).2 = none)) :
    ∃ final, retrievePlansLoop client service plans scan = .ok final := by
  induction plans generalizing scan with
  | nil => exact ⟨scan, by simp [retrievePlansLoop]⟩
  | cons plan rest ih =>
    have hpub := hnopub plan (by simp)
    obtain ⟨herr, hvis⟩ := hlook plan (by simp)
    have hrestpub : ∀ x ∈ rest, x.Public = false := fun x hx => hnopub x (by simp [hx])
    have hrestlook : ∀ x ∈ rest, (isPlanInAllOrgs client x.GUID).2 = none ∧
        ((isPlanInAllOrgs client x.GUID).1 = false →
          (getPlanVisibilitiesForPlan client x.GUID).2 = none) :=
      fun x hx => hlook x (by simp [hx])
    rw [retrievePlansLoop]
    simp only [hpub, Bool.false_eq_true, if_false]
    cases hall : isPlanInAllOrgs client plan.GUID with
    | mk isAll err =>
      rw [hall] at herr hvis
      simp only at herr hvis
      subst herr
      cases isAll with
      | true => exact ih _ hrestpub hrestlook
      | false =>
        cases hv : getPlanVisibilitiesForPlan client plan.GUID with
        | mk visibilities verr =>
          have hverr := hvis rfl
          rw [hv] at hverr
          simp only at hverr
          subst hverr
          exact ih _ hrestpub hrestlook

/-- A plan that lacks a grant in the store for some organization of the
directory is not found granted to every organization. -/
theorem isPlanInAllOrgs_false_of_lack (client : Client)
    (store : List ServicePlanVisibilityFields) (planGuid : String)
    (orgs : List Organization) (hans : AnswersFrom client store)
    (horgs : client.ListOrgs = .ok orgs)
    (hlack : ∃ org ∈ orgs, ∀ visibility ∈ store,
      ¬(visibility.ServicePlanGUID = planGuid ∧ visibility.OrganizationGUID = org.GUID)) :
    (isPlanInAllOrgs client planGuid).1 = false := by
  cases hall : isPlanInAllOrgs client planGuid with
  | mk isAll err =>
    cases isAll with
    | false => rfl
    | true =>
      exfalso
      obtain ⟨-, orgs2, horgs2, hevery⟩ := isPlanInAllOrgs_true client planGuid err hall
      rw [horgs] at horgs2
      have horgseq : orgs = orgs2 := by
        injection horgs2
      subst horgseq
      obtain ⟨org, horgmem, hnone⟩ := hlack
      obtain ⟨visibility, others, hsearch, -⟩ := hevery org horgmem
      have hmem : visibility ∈ searchStore store
          { service_plan_guid := some planGuid, organization_guid := some org.GUID } := by
        rw [← hans _ _ hsearch]
        simp
      rw [mem_searchStore_plan_org] at hmem
      exact hnone visibility hmem.1 ⟨hmem.2.1, hmem.2.2⟩

/-- C13, amended: for every client that answers its searches from the store or
fails.  (1) When each grant of the store names an organization (its
organization reference is not the empty string, which the record type reads as
the absent org), each record `(service, plan, ∅)` with plan present in the output of
`retrieveServicesAccessFromBroker` is valid: a plan of that name, of a service
of that label, has a grant in the store for every organization the directory
lists; so a plan lacking a grant for some organization is not emitted with an
absent org.  (2) Each record `(service, plan, org)` of the output is one grant
of such a plan held by the store.  (3) For a service that the pass reaches,
that has no public plan, whose lookups succeed and in which no two grants to
different organizations share the key `org ++ plan` of the compaction, a plan
lacking a grant for some organization of the directory is emitted as one
`(service, plan, org)` record per grant the store holds for it, or as part of
the collapsed record `(service, ∅, org)` of that organization. -/
theorem retrieveServicesAccessFromBroker_plan_record_valid (client : Client)
    (store : List ServicePlanVisibilityFields) (serviceBroker : ServiceBroker)
    (hans : AnswersFrom client store) :
    ((∀ visibility ∈ store, visibility.OrganizationGUID ≠ "") →
      ∀ r ∈ (retrieveServicesAccessFromBroker client serviceBroker).1,
        r.Plan ≠ "" → r.OrgId = "" →
        ∃ service ∈ serviceBroker.Services, r.Service = service.Label ∧
          ∃ plan ∈ service.Plans, r.Plan = plan.Name ∧
            ∃ orgs, client.ListOrgs = .ok orgs ∧ ∀ org ∈ orgs, ∃ visibility ∈ store,
              visibility.ServicePlanGUID = plan.GUID ∧
                visibility.OrganizationGUID = org.GUID) ∧
    (∀ r ∈ (retrieveServicesAccessFromBroker client serviceBroker).1,
      r.Plan ≠ "" → r.OrgId ≠ "" →
      ∃ service ∈ serviceBroker.Services, r.Service = service.Label ∧
        ∃ plan ∈ service.Plans, r.Plan = plan.Name ∧ ∃ visibility ∈ store,
          visibility.ServicePlanGUID = plan.GUID ∧
            visibility.OrganizationGUID = r.OrgId) ∧
    (∀ (pre post : List ServiceOffering) (service : ServiceOffering),
      serviceBroker.Services = pre ++ service :: post →
      (retrieveServicesAccessFromBroker client
        { serviceBroker with Services := pre }).2 = none →
      (∀ plan ∈ service.Plans, plan.Public = false) →
      (∀ plan ∈ service.Plans, (isPlanInAllOrgs client plan.GUID).2 = none ∧
        ((isPlanInAllOrgs client plan.GUID).1 = false →
          (getPlanVisibilitiesForPlan client plan.GUID).2 = none)) →
      (∀ plan1 ∈ service.Plans, ∀ plan2 ∈ service.Plans,
        ∀ visibility1 ∈ store, ∀ visibility2 ∈ store,
          visibility1.ServicePlanGUID = plan1.GUID →
          visibility2.ServicePlanGUID = plan2.GUID →
          visibility1.OrganizationGUID ++ plan1.Name =
            visibility2.OrganizationGUID ++ plan2.Name →
          visibility1.OrganizationGUID = visibility2.OrganizationGUID) →
      ∀ plan ∈ service.Plans,
        (∃ orgs, client.ListOrgs = .ok orgs ∧ ∃ org ∈ orgs, ∀ visibility ∈ store,
          ¬(visibility.ServicePlanGUID = plan.GUID ∧
            visibility.OrganizationGUID = org.GUID)) →
        ∀ visibility ∈ store, visibility.ServicePlanGUID = plan.GUID →
          (⟨service.Label, plan.Name, visibility.OrganizationGUID⟩ : ServiceAccess) ∈
              (retrieveServicesAccessFromBroker client serviceBroker).1 ∨
            (⟨service.Label, "", visibility.OrganizationGUID⟩ : ServiceAccess) ∈
              (retrieveServicesAccessFromBroker client serviceBroker).1) := by
  have hshape := fun r hr => mem_retrieveServicesAccessFromBroker client serviceBroker
    (fun service r => r.Service = service.Label ∧
      (r.Plan = "" ∨
        (r.OrgId = "" ∧ ∃ plan ∈ service.Plans, r.Plan = plan.Name ∧
          isPlanInAllOrgs client plan.GUID = (true, none)) ∨
        (∃ plan ∈ service.Plans, r.Plan = plan.Name ∧
          (getPlanVisibilitiesForPlan client plan.GUID).2 = none ∧
          ∃ visibility ∈ (getPlanVisibilitiesForPlan client plan.GUID).1,
            r.OrgId = visibility.OrganizationGUID)))
    (fun service _ scan hscan => serviceRecords_shape client service scan hscan) r hr
  have hgrant : ∀ (plan : ServicePlanFields) (visibility : ServicePlanVisibilityFields),
      (getPlanVisibilitiesForPlan client plan.GUID).2 = none →
      visibility ∈ (getPlanVisibilitiesForPlan client plan.GUID).1 →
      visibility ∈ store ∧ visibility.ServicePlanGUID = plan.GUID := by
    intro plan visibility hok hmem
    rw [getPlanVisibilitiesForPlan_answers client store plan.GUID hans hok,
      mem_searchStore_plan] at hmem
    exact hmem
  refine ⟨?_, ?_, ?_⟩
  · intro horgid r hr hplan horg
    obtain ⟨service, hservice, hlabel, hcases⟩ := hshape r hr
    refine ⟨service, hservice, hlabel, ?_⟩
    rcases hcases with h | ⟨-, plan, hplanmem, hname, hall⟩ | ⟨plan, -, -, hok, v, hv, hveq⟩
    · exact absurd h hplan
    · refine ⟨plan, hplanmem, hname, ?_⟩
      obtain ⟨-, orgs, horgs, hevery⟩ := isPlanInAllOrgs_true client plan.GUID none hall
      refine ⟨orgs, horgs, ?_⟩
      intro org horgmem
      obtain ⟨visibility, others, hsearch, -⟩ := hevery org horgmem
      have hmem : visibility ∈ searchStore store
          { service_plan_guid := some plan.GUID, organization_guid := some org.GUID } := by
        rw [← hans _ _ hsearch]
        simp
      rw [mem_searchStore_plan_org] at hmem
      exact ⟨visibility, hmem.1, hmem.2.1, hmem.2.2⟩
    · have hstore := (hgrant plan v hok hv).1
      rw [horg] at hveq
      exact absurd hveq.symm (horgid v hstore)
  · intro r hr hplan horg
    obtain ⟨service, hservice, hlabel, hcases⟩ := hshape r hr
    refine ⟨service, hservice, hlabel, ?_⟩
    rcases hcases with h | ⟨hempty, -⟩ | ⟨plan, hplanmem, hname, hok, v, hv, hveq⟩
    · exact absurd h hplan
    · exact absurd hempty horg
    · obtain ⟨hstore, hvplan⟩ := hgrant plan v hok hv
      exact ⟨plan, hplanmem, hname, v, hstore, hvplan, hveq.symm⟩
  · intro pre post service hcat hpre hnopub hlook hnoclash plan hplanmem hlack visibility
      hvstore hvplan
    obtain ⟨scan, hscan⟩ := retrievePlansLoop_ok_of_lookups client service service.Plans
      { servicesAccessInAllOrgsTemp := []
        servicesAccessOrgAndPlanTemp := []
        haveAllPlanInAllOrg := true } hnopub hlook
    obtain ⟨-, h2, h3, -⟩ := retrievePlansLoop_no_public client service service.Plans _ scan
      hnopub hscan
    obtain ⟨orgs, horgs, hlackorg⟩ := hlack
    have hnotall : (isPlanInAllOrgs client plan.GUID).1 = false :=
      isPlanInAllOrgs_false_of_lack client store plan.GUID orgs hans horgs hlackorg
    have hflag : scan.haveAllPlanInAllOrg = false := by
      rw [h3]
      simp only [Bool.true_and]
      rw [Bool.eq_false_iff]
      intro hall
      rw [List.all_eq_true] at hall
      rw [hall plan hplanmem] at hnotall
      exact absurd hnotall (by simp)
    have hexp : scan.servicesAccessOrgAndPlanTemp =
        (service.Plans.filter (fun plan => !(isPlanInAllOrgs client plan.GUID).1)).flatMap
          (planRecords client service) := by
      simpa using h2
    have hE : ∀ r0 ∈ scan.servicesAccessOrgAndPlanTemp, ∃ plan0 ∈ service.Plans,
        ∃ v0 ∈ store, v0.ServicePlanGUID = plan0.GUID ∧
          r0 = ⟨service.Label, plan0.Name, v0.OrganizationGUID⟩ := by
      intro r0 hr0
      rw [hexp, List.mem_flatMap] at hr0
      obtain ⟨plan0, hplan0, hrec⟩ := hr0
      rw [List.mem_filter] at hplan0
      rw [mem_planRecords] at hrec
      obtain ⟨v0, hv0, hr0eq⟩ := hrec
      have hok := (hlook plan0 hplan0.1).2 (by simpa using hplan0.2)
      obtain ⟨hv0store, hv0plan⟩ := hgrant plan0 v0 hok hv0
      exact ⟨plan0, hplan0.1, v0, hv0store, hv0plan, hr0eq⟩
    have hrmem : (⟨service.Label, plan.Name, visibility.OrganizationGUID⟩ : ServiceAccess) ∈
        scan.servicesAccessOrgAndPlanTemp := by
      rw [hexp, List.mem_flatMap]
      refine ⟨plan, ?_, ?_⟩
      · rw [List.mem_filter]
        exact ⟨hplanmem, by simp [hnotall]⟩
      · rw [mem_planRecords]
        refine ⟨visibility, ?_, rfl⟩
        rw [getPlanVisibilitiesForPlan_answers client store plan.GUID hans
          ((hlook plan hplanmem).2 hnotall), mem_searchStore_plan]
        exact ⟨hvstore, hvplan⟩
    have hclash : ∀ a ∈ scan.servicesAccessOrgAndPlanTemp,
        ∀ b ∈ scan.servicesAccessOrgAndPlanTemp,
        a.OrgId ++ a.Plan = b.OrgId ++ b.Plan → a.OrgId = b.OrgId ∧ a.Service = b.Service := by
      intro a ha b hb hkey
      obtain ⟨pa, hpa, va, hva, hvap, rfl⟩ := hE a ha
      obtain ⟨pb, hpb, vb, hvb, hvbp, rfl⟩ := hE b hb
      exact ⟨hnoclash pa hpa pb hpb va hva vb hvb hvap hvbp hkey, rfl⟩
    have hrep := splitServiceAccessLoop_represented scan.servicesAccessOrgAndPlanTemp
      (service.Plans.length : Int) scan.servicesAccessOrgAndPlanTemp [] [] []
      (fun x hx => hx) (by simp) hclash _ hrmem
    have hout := retrieveServicesAccessFromBroker_split client serviceBroker pre post service
      (serviceRecords service scan) hcat hpre
      (fun servicesAccess =>
        retrieveServicesLoop_cons_records client service post servicesAccess scan hscan)
    have hrecords : serviceRecords service scan =
        scan.servicesAccessInAllOrgsTemp ++
          (splitServiceAccess scan.servicesAccessOrgAndPlanTemp
            (service.Plans.length : Int)).1 ++
          (splitServiceAccess scan.servicesAccessOrgAndPlanTemp
            (service.Plans.length : Int)).2 := by
      unfold serviceRecords
      simp [hflag]
    rw [hout, hrecords]
    unfold splitServiceAccess
    rcases hrep with h | h
    · left
      simp only [List.mem_append]
      exact Or.inl (Or.inr (Or.inr h))
    · right
      simp only [List.mem_append]
      exact Or.inl (Or.inr (Or.inl (Or.inr h)))

/-- Witness of the amended C13: `p1` is granted to `o1` and `o2`, `p2` to `o1`
alone.  The record `(S, p1, ∅)` is in the output and `p1` has a grant for every
organization of the directory; the plan `p2`, which lacks a grant for `o2`, is
emitted as the record `(S, p2, o1)` of its one grant. -/
theorem retrieveServicesAccessFromBroker_plan_record_valid_witness :
    ((⟨"S", "p1", ""⟩ : ServiceAccess) ∈ (retrieveServicesAccessFromBroker
        (storeClient [⟨"o1"⟩, ⟨"o2"⟩]
          [⟨"v1", "pg1", "o1"⟩, ⟨"v2", "pg1", "o2"⟩, ⟨"v3", "pg2", "o1"⟩])
        twoPlansBroker).1 ∧
      ∃ service ∈ twoPlansBroker.Services, "S" = service.Label ∧
        ∃ plan ∈ service.Plans, "p1" = plan.Name ∧
          ∃ orgs, (storeClient [⟨"o1"⟩, ⟨"o2"⟩]
              [⟨"v1", "pg1", "o1"⟩, ⟨"v2", "pg1", "o2"⟩, ⟨"v3", "pg2", "o1"⟩]).ListOrgs =
              .ok orgs ∧
            ∀ org ∈ orgs, ∃ visibility ∈
                [(⟨"v1", "pg1", "o1"⟩ : ServicePlanVisibilityFields), ⟨"v2", "pg1", "o2"⟩,
                  ⟨"v3", "pg2", "o1"⟩],
              visibility.ServicePlanGUID = plan.GUID ∧
                visibility.OrganizationGUID = org.GUID) ∧
    ((⟨"S", "p2", "o1"⟩ : ServiceAccess) ∈ (retrieveServicesAccessFromBroker
        (storeClient [⟨"o1"⟩, ⟨"o2"⟩]
          [⟨"v1", "pg1", "o1"⟩, ⟨"v2", "pg1", "o2"⟩, ⟨"v3", "pg2", "o1"⟩])
        twoPlansBroker).1 ∨
      (⟨"S", "", "o1"⟩ : ServiceAccess) ∈ (retrieveServicesAccessFromBroker
        (storeClient [⟨"o1"⟩, ⟨"o2"⟩]
          [⟨"v1", "pg1", "o1"⟩, ⟨"v2", "pg1", "o2"⟩, ⟨"v3", "pg2", "o1"⟩])
        twoPlansBroker).1) :=
  ⟨⟨by decide,
    (retrieveServicesAccessFromBroker_plan_record_valid
      (storeClient [⟨"o1"⟩, ⟨"o2"⟩]
        [⟨"v1", "pg1", "o1"⟩, ⟨"v2", "pg1", "o2"⟩, ⟨"v3", "pg2", "o1"⟩])
      [⟨"v1", "pg1", "o1"⟩, ⟨"v2", "pg1", "o2"⟩, ⟨"v3", "pg2", "o1"⟩] twoPlansBroker
      (storeClient_answersFrom _ _)).1 (by decide) ⟨"S", "p1", ""⟩ (by decide) (by decide)
      rfl⟩,
   (retrieveServicesAccessFromBroker_plan_record_valid
      (storeClient [⟨"o1"⟩, ⟨"o2"⟩]
        [⟨"v1", "pg1", "o1"⟩, ⟨"v2", "pg1", "o2"⟩, ⟨"v3", "pg2", "o1"⟩])
      [⟨"v1", "pg1", "o1"⟩, ⟨"v2", "pg1", "o2"⟩, ⟨"v3", "pg2", "o1"⟩] twoPlansBroker
      (storeClient_answersFrom _ _)).2.2 [] []
      ⟨"g", "S", [⟨"pg1", "p1", false, "g"⟩, ⟨"pg2", "p2", false, "g"⟩]⟩
      rfl (by decide) (by decide) (by decide) (by decide)
      ⟨"pg2", "p2", false, "g"⟩ (by decide)
      ⟨[⟨"o1"⟩, ⟨"o2"⟩], rfl, ⟨"o2"⟩, by decide, by decide⟩
      ⟨"v3", "pg2", "o1"⟩ (by decide) rfl⟩

/-! ## Normalisation over the store of the specification -/

theorem isPlanInOrg_storeClient (orgs : List Organization)
    (store : List ServicePlanVisibilityFields) (planGuid orgGuid : String) :
    isPlanInOrg (storeClient orgs store) planGuid orgGuid =
      (visibleIn store planGuid orgGuid, none) := by
  unfold isPlanInOrg getPlanVisibilityForPlanAndOrg visibleIn
  simp only [storeClient]
  cases hsearch : searchStore store
      { service_plan_guid := some planGuid, organization_guid := some orgGuid } with
  | nil =>
    have hzero : (default : ServicePlanVisibilityFields).GUID = "" := rfl
    simp [hzero]
  | cons visibility others =>
    by_cases hguid : visibility.GUID = "" <;> simp [hguid]

theorem isPlanInAllOrgs_storeClient (orgs : List Organization)
    (store : List ServicePlanVisibilityFields) (planGuid : String) :
    isPlanInAllOrgs (storeClient orgs store) planGuid =
      (grantedToAll store orgs planGuid, none) := by
  have hloop : ∀ l : List Organization,
      isPlanInAllOrgsLoop (storeClient orgs store) planGuid l =
        (l.all (fun org => visibleIn store planGuid org.GUID), none) := by
    intro l
    induction l with
    | nil => rfl
    | cons org rest ih =>
      rw [isPlanInAllOrgsLoop, isPlanInOrg_storeClient]
      cases hvis : visibleIn store planGuid org.GUID with
      | true => simp [ih, hvis]
      | false => simp [hvis]
  unfold isPlanInAllOrgs grantedToAll
  simp only [storeClient]
  exact hloop orgs

theorem getPlanVisibilitiesForPlan_storeClient (orgs : List Organization)
    (store : List ServicePlanVisibilityFields) (planGuid : String) :
    getPlanVisibilitiesForPlan (storeClient orgs store) planGuid =
      (searchStore store { service_plan_guid := some planGuid, organization_guid := none },
        none) := by
  unfold getPlanVisibilitiesForPlan
  simp only [storeClient]

theorem retrievePlansLoop_storeClient_ok (orgs : List Organization)
    (store : List ServicePlanVisibilityFields) (service : ServiceOffering)
    (plans : List ServicePlanFields) (scan : PlanScan) :
    ∃ final, retrievePlansLoop (storeClient orgs store) service plans scan = .ok final := by
  induction plans generalizing scan with
  | nil => exact ⟨scan, by simp [retrievePlansLoop]⟩
  | cons plan rest ih =>
    rw [retrievePlansLoop]
    by_cases hpub : plan.Public = true
    · simp [hpub]
    · simp only [hpub, if_false]
      rw [isPlanInAllOrgs_storeClient]
      cases grantedToAll store orgs plan.GUID with
      | true =>
        simp only [if_true]
        exact ih _
      | false =>
        simp only [Bool.false_eq_true, if_false]
        rw [getPlanVisibilitiesForPlan_storeClient]
        exact ih _

/-- Over a keyed store, an organization with as many explicit records as the
service has plans holds a grant on every plan, and no plan of the service is
granted to every organization. -/
theorem explicit_count_eq_numberPlan (client : Client)
    (store : List ServicePlanVisibilityFields) (service : ServiceOffering) (orgId : String)
    (hans : AnswersFrom client store) (hkeyed : Keyed store)
    (hlook : ∀ plan ∈ service.Plans, (isPlanInAllOrgs client plan.GUID).1 = false →
      (getPlanVisibilitiesForPlan client plan.GUID).2 = none)
    (hcount : ((getServicesAccessForOrg
      ((service.Plans.filter (fun plan => !(isPlanInAllOrgs client plan.GUID).1)).flatMap
        (planRecords client service)) orgId).length : Int) = (service.Plans.length : Int)) :
    (∀ plan ∈ service.Plans, (isPlanInAllOrgs client plan.GUID).1 = false) ∧
    (∀ plan ∈ service.Plans, ∃ visibility ∈ store,
      visibility.ServicePlanGUID = plan.GUID ∧ visibility.OrganizationGUID = orgId) := by
  rw [getServicesAccessForOrg_eq_filter] at hcount
  have hcountNat : ((List.flatMap
      (List.filter (fun plan => !(isPlanInAllOrgs client plan.GUID).1) service.Plans)
      (planRecords client service)).filter
      (fun r => decide (r.OrgId = orgId))).length = service.Plans.length := by
    exact_mod_cast hcount
  have hok : ∀ plan ∈ service.Plans.filter
      (fun plan => !(isPlanInAllOrgs client plan.GUID).1),
      (getPlanVisibilitiesForPlan client plan.GUID).2 = none := by
    intro plan hmem
    rw [List.mem_filter] at hmem
    exact hlook plan hmem.1 (by simpa using hmem.2)
  obtain ⟨hle, hfull⟩ := explicit_records_of_org client store service _ orgId hans hkeyed hok
  have hfl := List.length_filter_le
    (fun plan => !(isPlanInAllOrgs client plan.GUID).1) service.Plans
  have hlen : (service.Plans.filter
      (fun plan => !(isPlanInAllOrgs client plan.GUID).1)).length =
      service.Plans.length := by omega
  have hall := hfull (by omega)
  have hevery := List.filter_length_eq_length.mp hlen
  have hself : service.Plans.filter
      (fun plan => !(isPlanInAllOrgs client plan.GUID).1) = service.Plans :=
    List.filter_eq_self.mpr hevery
  rw [hself] at hall
  exact ⟨fun plan hplan => by simpa using hevery plan hplan, hall⟩

/-- C14: for a service with no public plan in which at least one plan lacks a
grant for some organization of the directory and no organization holds an
explicit grant on every plan (each organization misses a grant on some plan, or
some plan is granted to every organization), over a keyed store, the output of
`retrieveServicesAccessFromBroker` for the service is the `(service, plan, ∅)`
records of the plans granted to every organization, in plan order, followed by
one `(service, plan, org)` record per grant of the other plans; it stands
between the records of the preceding services, normalised without error, and
those of the following ones. -/
theorem retrieveServicesAccessFromBroker_per_plan_records (orgs : List Organization)
    (store : List ServicePlanVisibilityFields) (serviceBroker : ServiceBroker)
    (pre post : List ServiceOffering) (service : ServiceOffering)
    (hcat : serviceBroker.Services = pre ++ service :: post)
    (hnopub : ∀ plan ∈ service.Plans, plan.Public = false)
    (hkeyed : Keyed store)
    (hlack : ∃ plan ∈ service.Plans, grantedToAll store orgs plan.GUID = false)
    (hnone : ∀ orgId, ∃ plan ∈ service.Plans, grantedToAll store orgs plan.GUID = true ∨
      ∀ visibility ∈ store,
        ¬(visibility.ServicePlanGUID = plan.GUID ∧ visibility.OrganizationGUID = orgId))
    (hpre : (retrieveServicesAccessFromBroker (storeClient orgs store)
      { serviceBroker with Services := pre }).2 = none) :
    retrieveServicesAccessFromBroker (storeClient orgs store) serviceBroker =
      ((retrieveServicesAccessFromBroker (storeClient orgs store)
            { serviceBroker with Services := pre }).1 ++
          ((service.Plans.filter (fun plan => grantedToAll store orgs plan.GUID)).map
              (fun plan => ⟨service.Label, plan.Name, ""⟩) ++
            (service.Plans.filter (fun plan => !grantedToAll store orgs plan.GUID)).flatMap
              (fun plan =>
                (searchStore store
                  { service_plan_guid := some plan.GUID, organization_guid := none }).map
                  (fun visibility =>
                    ⟨service.Label, plan.Name, visibility.OrganizationGUID⟩))) ++
          (retrieveServicesAccessFromBroker (storeClient orgs store)
            { serviceBroker with Services := post }).1,
        (retrieveServicesAccessFromBroker (storeClient orgs store)
          { serviceBroker with Services := post }).2) := by
  apply retrieveServicesAccessFromBroker_split (storeClient orgs store) serviceBroker pre post
    service _ hcat hpre
  intro servicesAccess
  obtain ⟨scan, hscan⟩ := retrievePlansLoop_storeClient_ok orgs store service service.Plans
    { servicesAccessInAllOrgsTemp := []
      servicesAccessOrgAndPlanTemp := []
      haveAllPlanInAllOrg := true }
  obtain ⟨h1, h2, h3, h4⟩ := retrievePlansLoop_no_public (storeClient orgs store) service
    service.Plans _ scan hnopub hscan
  have hgranted : (fun plan : ServicePlanFields =>
      (isPlanInAllOrgs (storeClient orgs store) plan.GUID).1) =
      (fun plan => grantedToAll store orgs plan.GUID) := by
    funext plan
    rw [isPlanInAllOrgs_storeClient]
  have hnotgranted : (fun plan : ServicePlanFields =>
      !(isPlanInAllOrgs (storeClient orgs store) plan.GUID).1) =
      (fun plan => !grantedToAll store orgs plan.GUID) := by
    funext plan
    rw [isPlanInAllOrgs_storeClient]
  have hrecords : planRecords (storeClient orgs store) service =
      (fun plan =>
        (searchStore store
          { service_plan_guid := some plan.GUID, organization_guid := none }).map
          (fun visibility => ⟨service.Label, plan.Name, visibility.OrganizationGUID⟩)) := by
    funext plan
    unfold planRecords
    rw [getPlanVisibilitiesForPlan_storeClient]
  have hflag : scan.haveAllPlanInAllOrg = false := by
    rw [h3, hgranted]
    obtain ⟨plan, hplan, hfalse⟩ := hlack
    simp only [Bool.true_and]
    rw [Bool.eq_false_iff]
    intro hall
    rw [List.all_eq_true] at hall
    rw [hall plan hplan] at hfalse
    exact absurd hfalse (by simp)
  have hexp : scan.servicesAccessOrgAndPlanTemp =
      (service.Plans.filter
        (fun plan => !(isPlanInAllOrgs (storeClient orgs store) plan.GUID).1)).flatMap
        (planRecords (storeClient orgs store) service) := by
    simpa using h2
  have hsplit : splitServiceAccess scan.servicesAccessOrgAndPlanTemp
      (service.Plans.length : Int) = ([], scan.servicesAccessOrgAndPlanTemp) := by
    unfold splitServiceAccess
    rw [splitServiceAccessLoop_no_collapse]
    · simp
    · intro r _ hcount
      rw [hexp] at hcount
      obtain ⟨hexplicit, hgrants⟩ := explicit_count_eq_numberPlan (storeClient orgs store)
        store service r.OrgId (storeClient_answersFrom orgs store) hkeyed
        (fun plan hplan => (h4 plan hplan).2) hcount
      obtain ⟨plan, hplan, hcase | hcase⟩ := hnone r.OrgId
      · have := hexplicit plan hplan
        rw [isPlanInAllOrgs_storeClient] at this
        simp only at this
        rw [hcase] at this
        exact absurd this (by simp)
      · obtain ⟨visibility, hmem, hp, ho⟩ := hgrants plan hplan
        exact hcase visibility hmem ⟨hp, ho⟩
  rw [retrieveServicesLoop_cons_records (storeClient orgs store) service post servicesAccess
    scan hscan]
  unfold serviceRecords
  rw [hsplit]
  simp only [hflag, Bool.false_eq_true, if_false, List.append_nil]
  rw [h1, hexp, hgranted, hnotgranted, hrecords]
  simp

/-- Witness of C14, the example of the specification: service `S` with plans
`p1` and `p2`, directory `[o1, o2]`, `p1` granted to `o1` and `o2`, `p2` to
`o1` alone; the output is exactly `[(S, p1, ∅), (S, p2, o1)]`. -/
theorem retrieveServicesAccessFromBroker_per_plan_records_witness :
    retrieveServicesAccessFromBroker
        (storeClient [⟨"o1"⟩, ⟨"o2"⟩]
          [⟨"v1", "pg1", "o1"⟩, ⟨"v2", "pg1", "o2"⟩, ⟨"v3", "pg2", "o1"⟩])
        twoPlansBroker =
      ([⟨"S", "p1", ""⟩, ⟨"S", "p2", "o1"⟩], none) :=
  (retrieveServicesAccessFromBroker_per_plan_records [⟨"o1"⟩, ⟨"o2"⟩]
      [⟨"v1", "pg1", "o1"⟩, ⟨"v2", "pg1", "o2"⟩, ⟨"v3", "pg2", "o1"⟩] twoPlansBroker [] []
      ⟨"g", "S", [⟨"pg1", "p1", false, "g"⟩, ⟨"pg2", "p2", false, "g"⟩]⟩
      rfl (by decide) (by decide)
      ⟨⟨"pg2", "p2", false, "g"⟩, by decide, by decide⟩
      (fun _ => ⟨⟨"pg1", "p1", false, "g"⟩, by decide, Or.inl (by decide)⟩)
      (by decide)).trans (by decide)

/-! ## Naming of services and plans -/

/-- Every tuple of an expansion carries the service string of the declaration
and, when the declaration has a plan, its plan string. -/
theorem mem_getFullServiceAccessDef (client : Client) (serviceBroker : ServiceBroker)
    (serviceAccess : ServiceAccess) :
    ∀ t ∈ (getFullServiceAccessDef client serviceBroker serviceAccess).1,
      t.Service = serviceAccess.Service ∧
        (serviceAccess.Plan ≠ "" → t.Plan = serviceAccess.Plan) := by
  intro t ht
  by_cases hsvc : (getService serviceBroker serviceAccess.Service).GUID = ""
  · rw [getFullServiceAccessDef_unresolved client serviceBroker serviceAccess hsvc] at ht
    simp at ht
  · by_cases hplan : serviceAccess.Plan = ""
    · by_cases horg : serviceAccess.OrgId = ""
      · have hnil : (getFullServiceAccessDef client serviceBroker serviceAccess).1 = [] := by
          unfold getFullServiceAccessDef
          simp [hsvc, hplan, horg]
        rw [hnil] at ht
        simp at ht
      · have hres : getFullServiceAccessDef client serviceBroker serviceAccess =
            ((getService serviceBroker serviceAccess.Service).Plans.map
              (fun plan => ⟨serviceAccess.Service, plan.Name, serviceAccess.OrgId⟩), none) := by
          unfold getFullServiceAccessDef
          simp [hplan, horg, hsvc, getServicesAccessDefWithOnlyOrg_eq_map]
        rw [hres] at ht
        simp only [List.mem_map] at ht
        obtain ⟨plan, -, rfl⟩ := ht
        exact ⟨rfl, fun h => absurd hplan h⟩
    · cases horgs : client.ListOrgs with
      | error msg =>
        rw [getFullServiceAccessDef_plan_error client serviceBroker serviceAccess msg hplan
          hsvc horgs] at ht
        simp at ht
      | ok orgs =>
        rw [getFullServiceAccessDef_plan_ok client serviceBroker serviceAccess orgs hplan
          hsvc horgs] at ht
        simp only [List.mem_map] at ht
        obtain ⟨org, -, rfl⟩ := ht
        exact ⟨rfl, fun _ => rfl⟩

/-- C20, as stated, fails: the declarations `(g, ∅, ∅)` and `(S, ∅, ∅)` name
the same service of the catalog by its id and by its label, both resolve to
it, and they expand to the same tuples, none, although the id `g` is not the
label `S`. -/
theorem getFullServiceAccessDef_same_tuples_by_id_and_label :
    getService twoPlansBroker "g" = getService twoPlansBroker "S" ∧
    (getService twoPlansBroker "g").GUID = "g" ∧
    (getService twoPlansBroker "g").Label = "S" ∧
    getFullServiceAccessDef twoOrgsClient twoPlansBroker ⟨"g", "", ""⟩ = ([], none) ∧
    getFullServiceAccessDef twoOrgsClient twoPlansBroker ⟨"S", "", ""⟩ = ([], none) ∧
    (getService twoPlansBroker "g").GUID ≠ (getService twoPlansBroker "g").Label := by
  refine ⟨by decide, by decide, by decide, by decide, by decide, by decide⟩

/-- C20, amended: every tuple emitted by `getFullServiceAccessDef` carries the
service string of the declaration and, when the declaration has a plan, its
plan string; every record emitted by `retrieveServicesAccessFromBroker`
carries the label of a service of the catalog and no plan or the name of a
plan of that service.  Hence a declaration naming a service by its id and the
same declaration naming it by its label yield the same tuples only when the id
is the label or no tuple is emitted. -/
theorem naming_not_canonicalised (client : Client) (serviceBroker : ServiceBroker) :
    (∀ serviceAccess, ∀ t ∈ (getFullServiceAccessDef client serviceBroker serviceAccess).1,
      t.Service = serviceAccess.Service ∧
        (serviceAccess.Plan ≠ "" → t.Plan = serviceAccess.Plan)) ∧
    (∀ r ∈ (retrieveServicesAccessFromBroker client serviceBroker).1,
      ∃ service ∈ serviceBroker.Services, r.Service = service.Label ∧
        (r.Plan = "" ∨ ∃ plan ∈ service.Plans, r.Plan = plan.Name)) ∧
    (∀ (service : ServiceOffering) (plan org : String),
      (getFullServiceAccessDef client serviceBroker ⟨service.GUID, plan, org⟩).1 =
        (getFullServiceAccessDef client serviceBroker ⟨service.Label, plan, org⟩).1 →
      service.GUID = service.Label ∨
        (getFullServiceAccessDef client serviceBroker ⟨service.GUID, plan, org⟩).1 = []) := by
  refine ⟨fun serviceAccess => mem_getFullServiceAccessDef client serviceBroker serviceAccess,
    ?_, ?_⟩
  · intro r hr
    obtain ⟨service, hservice, hlabel, hcases⟩ :=
      mem_retrieveServicesAccessFromBroker client serviceBroker
        (fun service r => r.Service = service.Label ∧
          (r.Plan = "" ∨
            (r.OrgId = "" ∧ ∃ plan ∈ service.Plans, r.Plan = plan.Name ∧
              isPlanInAllOrgs client plan.GUID = (true, none)) ∨
            (∃ plan ∈ service.Plans, r.Plan = plan.Name ∧
              (getPlanVisibilitiesForPlan client plan.GUID).2 = none ∧
              ∃ visibility ∈ (getPlanVisibilitiesForPlan client plan.GUID).1,
                r.OrgId = visibility.OrganizationGUID)))
        (fun service _ scan hscan => serviceRecords_shape client service scan hscan) r hr
    refine ⟨service, hservice, hlabel, ?_⟩
    rcases hcases with h | ⟨-, plan, hplan, hname, -⟩ | ⟨plan, hplan, hname, -⟩
    · exact Or.inl h
    · exact Or.inr ⟨plan, hplan, hname⟩
    · exact Or.inr ⟨plan, hplan, hname⟩
  · intro service plan org heq
    cases hlist : (getFullServiceAccessDef client serviceBroker
        ⟨service.GUID, plan, org⟩).1 with
    | nil => exact Or.inr rfl
    | cons t rest =>
      left
      have hmem : t ∈ (getFullServiceAccessDef client serviceBroker
          ⟨service.GUID, plan, org⟩).1 := by
        rw [hlist]
        simp
      have hid := (mem_getFullServiceAccessDef client serviceBroker _ t hmem).1
      rw [heq] at hmem
      have hlabel := (mem_getFullServiceAccessDef client serviceBroker _ t hmem).1
      exact hid.symm.trans hlabel

/-! ## Normalisation with an empty Org Directory -/

theorem isPlanInAllOrgs_empty_directory (client : Client) (planGuid : String)
    (horgs : client.ListOrgs = .ok []) :
    isPlanInAllOrgs client planGuid = (true, none) := by
  unfold isPlanInAllOrgs
  rw [horgs]
  rfl

/-- With an empty directory the scan of the plans keeps the flag it starts
with when that flag is set, and ends without error. -/
theorem retrievePlansLoop_empty_directory (client : Client) (service : ServiceOffering)
    (plans : List ServicePlanFields) (scan : PlanScan)
    (horgs : client.ListOrgs = .ok [])
    (hflag : scan.haveAllPlanInAllOrg = true) :
    ∃ final, retrievePlansLoop client service plans scan = .ok final ∧
      final.haveAllPlanInAllOrg = true := by
  induction plans generalizing scan with
  | nil => exact ⟨scan, by simp [retrievePlansLoop], hflag⟩
  | cons plan rest ih =>
    rw [retrievePlansLoop]
    by_cases hpub : plan.Public = true
    · simp [hpub]
    · simp only [hpub, if_false]
      rw [isPlanInAllOrgs_empty_directory client plan.GUID horgs]
      simp only [if_true]
      exact ih _ hflag

theorem retrieveServicesLoop_empty_directory (client : Client)
    (services : List ServiceOffering) (servicesAccess : List ServiceAccess)
    (horgs : client.ListOrgs = .ok []) :
    retrieveServicesLoop client services servicesAccess =
      (servicesAccess ++ services.map (fun service => ⟨service.Label, "", ""⟩), none) := by
  induction services generalizing servicesAccess with
  | nil => simp [retrieveServicesLoop]
  | cons service rest ih =>
    obtain ⟨final, hscan, hflag⟩ := retrievePlansLoop_empty_directory client service
      service.Plans
      { servicesAccessInAllOrgsTemp := []
        servicesAccessOrgAndPlanTemp := []
        haveAllPlanInAllOrg := true } horgs rfl
    rw [retrieveServicesLoop_cons_ok client service rest servicesAccess final hscan, ih]
    simp [hflag]

/-- C21: when the Org Directory is empty, `retrieveServicesAccessFromBroker`
returns without error exactly one record `(service.Label, ∅, ∅)` per service of
the catalog, in catalog order, whatever the plans of the services and whatever
the searches of the client answer: `isPlanInAllOrgs` holds of every plan. -/
theorem retrieveServicesAccessFromBroker_empty_directory (client : Client)
    (serviceBroker : ServiceBroker) (horgs : client.ListOrgs = .ok []) :
    retrieveServicesAccessFromBroker client serviceBroker =
      (serviceBroker.Services.map (fun service => ⟨service.Label, "", ""⟩), none) := by
  unfold retrieveServicesAccessFromBroker
  rw [retrieveServicesLoop_empty_directory client serviceBroker.Services [] horgs]
  simp

/-- Witness of C21: a service none of whose plans is public, a service without
plans and a service with a public plan are each reported by one record without
plan and organization, with a client whose searches all fail. -/
theorem retrieveServicesAccessFromBroker_empty_directory_witness :
    retrieveServicesAccessFromBroker emptyDirectoryClient threeServicesBroker =
      ([⟨"S", "", ""⟩, ⟨"U", "", ""⟩, ⟨"P", "", ""⟩], none) :=
  retrieveServicesAccessFromBroker_empty_directory emptyDirectoryClient threeServicesBroker rfl

end CfServiceBroker

namespace CfStack

/-- The read with `first = true` faults exactly when the platform returns an
empty list of stacks without error. -/
theorem DataSourceRead_first_faults_iff (client : Client) (d : ResourceData)
    (hfirst : d.first = true) :
    (∃ index length, DataSourceRead client d = .indexOutOfRange index length) ↔
      client.FindAll = .ok [] := by
  unfold DataSourceRead
  simp only [hfirst, if_true]
  cases hall : client.FindAll with
  | error msg => simp
  | ok stackList =>
    cases stackList with
    | nil => simp
    | cons stack rest => simp

/-- C22: with `first = true` and a platform that returns the empty list of
stacks without error, `DataSourceRead` does not return: the access `stacks[0]`
is out of range for a slice of length 0.  For every client, the read with
`first = true` faults exactly on that answer. -/
theorem DataSourceRead_first_empty_list_faults :
    DataSourceRead noStackClient ⟨true, "", "", ""⟩ = .indexOutOfRange 0 0 ∧
    (∀ d err, DataSourceRead noStackClient ⟨true, "", "", ""⟩ ≠ .returned d err) ∧
    (∀ (client : Client) (d : ResourceData), d.first = true →
      ((∃ index length, DataSourceRead client d = .indexOutOfRange index length) ↔
        client.FindAll = .ok [])) := by
  refine ⟨rfl, ?_, ?_⟩
  · intro d err h
    have heval : DataSourceRead noStackClient ⟨true, "", "", ""⟩ = .indexOutOfRange 0 0 := rfl
    rw [heval] at h
    exact Outcome.noConfusion h
  · intro client d hfirst
    exact DataSourceRead_first_faults_iff client d hfirst

end CfStack
